import Mathlib

/-!
Verification of the qsdl strategy compiler (codegen-python): the Normalizer
`json_to_ast.py` (StrategyTransformer) and the Emitter `ast_to_code.py`
(JavaScriptGenerator), shallowly embedded over a JSON value type that models
the Python dict/list/scalar data the code manipulates.

Conventions of the embedding:
- Python dicts are `JValue.obj` association lists with distinct keys (JSON
  objects); Python lists are `JValue.arr`; JSON numbers are modelled as `Int`
  (all numbers appearing in the strategy configurations are integers).
- Fallible Python operations (KeyError, TypeError, AttributeError, unbounded
  recursion) are modelled with `Except String`; the error string records the
  kind of Python exception raised.
- Python dict-key hashability and truthiness are modelled explicitly.
-/

namespace QSDL

/-- JSON-ish values, the universe of data the Python code manipulates. -/
inductive JValue where
  | null : JValue
  | bool : Bool → JValue
  | num : Int → JValue
  | str : String → JValue
  | arr : List JValue → JValue
  | obj : List (String × JValue) → JValue
deriving Repr

mutual

/-- Structural equality on values (Python `==` on JSON data). -/
def JValue.beq : JValue → JValue → Bool
  | .null, .null => true
  | .bool a, .bool b => a = b
  | .num a, .num b => a = b
  | .str a, .str b => a = b
  | .arr a, .arr b => JValue.beqList a b
  | .obj a, .obj b => JValue.beqFields a b
  | _, _ => false

def JValue.beqList : List JValue → List JValue → Bool
  | [], [] => true
  | a :: as2, b :: bs => JValue.beq a b && JValue.beqList as2 bs
  | _, _ => false

def JValue.beqFields : List (String × JValue) → List (String × JValue) → Bool
  | [], [] => true
  | (k1, v1) :: r1, (k2, v2) :: r2 => k1 = k2 && JValue.beq v1 v2 && JValue.beqFields r1 r2
  | _, _ => false

end

theorem JValue.sizeOf_mem_arr {x : JValue} {xs : List JValue} (h : x ∈ xs) :
    sizeOf x < sizeOf (JValue.arr xs) := by
  have := List.sizeOf_lt_of_mem h
  simp only [JValue.arr.sizeOf_spec]
  omega

theorem JValue.sizeOf_field_val {k : String} {v : JValue} {fs : List (String × JValue)}
    (h : (k, v) ∈ fs) : sizeOf v < sizeOf (JValue.obj fs) := by
  have h1 := List.sizeOf_lt_of_mem h
  have h2 : sizeOf (k, v) = 1 + sizeOf k + sizeOf v := rfl
  simp only [JValue.obj.sizeOf_spec]
  omega

theorem JValue.beqList_iff_of {xs ys : List JValue}
    (ihel : ∀ x ∈ xs, ∀ y : JValue, JValue.beq x y = true ↔ x = y) :
    JValue.beqList xs ys = true ↔ xs = ys := by
  induction xs generalizing ys with
  | nil => cases ys <;> simp [JValue.beqList]
  | cons x rest ih =>
    cases ys with
    | nil => simp [JValue.beqList]
    | cons y rest2 =>
      simp only [JValue.beqList, Bool.and_eq_true, List.cons.injEq]
      rw [ihel x (by simp) y, ih (fun z hz => ihel z (by simp [hz]))]

theorem JValue.beqFields_iff_of {fs gs : List (String × JValue)}
    (ihel : ∀ p ∈ fs, ∀ y : JValue, JValue.beq p.2 y = true ↔ p.2 = y) :
    JValue.beqFields fs gs = true ↔ fs = gs := by
  induction fs generalizing gs with
  | nil => cases gs <;> simp [JValue.beqFields]
  | cons p rest ih =>
    cases gs with
    | nil => simp [JValue.beqFields]
    | cons q rest2 =>
      obtain ⟨k1, v1⟩ := p
      obtain ⟨k2, v2⟩ := q
      simp only [JValue.beqFields, Bool.and_eq_true, List.cons.injEq, Prod.mk.injEq,
        decide_eq_true_eq]
      rw [ihel (k1, v1) (by simp) v2, ih (fun z hz => ihel z (by simp [hz]))]

theorem JValue.beq_iff : ∀ a b : JValue, JValue.beq a b = true ↔ a = b := by
  have main : ∀ (n : Nat) (a b : JValue), sizeOf a ≤ n →
      (JValue.beq a b = true ↔ a = b) := by
    intro n
    induction n using Nat.strong_induction_on with
    | _ n ih =>
      intro a b ha
      match a, b with
      | .null, b => cases b <;> simp [JValue.beq]
      | .bool x, b => cases b <;> simp [JValue.beq]
      | .num x, b => cases b <;> simp [JValue.beq]
      | .str x, b => cases b <;> simp [JValue.beq]
      | .arr xs, b =>
        cases b with
        | arr ys =>
          simp only [JValue.beq, JValue.arr.injEq]
          exact JValue.beqList_iff_of (fun x hx y =>
            ih (sizeOf x) (lt_of_lt_of_le (JValue.sizeOf_mem_arr hx) ha) x y le_rfl)
        | null => simp [JValue.beq]
        | bool _ => simp [JValue.beq]
        | num _ => simp [JValue.beq]
        | str _ => simp [JValue.beq]
        | obj _ => simp [JValue.beq]
      | .obj fs, b =>
        cases b with
        | obj gs =>
          simp only [JValue.beq, JValue.obj.injEq]
          exact JValue.beqFields_iff_of (fun p hp y =>
            ih (sizeOf p.2) (lt_of_lt_of_le
              (JValue.sizeOf_field_val (k := p.1) (by simpa using hp)) ha) p.2 y le_rfl)
        | null => simp [JValue.beq]
        | bool _ => simp [JValue.beq]
        | num _ => simp [JValue.beq]
        | str _ => simp [JValue.beq]
        | arr _ => simp [JValue.beq]
  exact fun a b => main (sizeOf a) a b le_rfl

instance : DecidableEq JValue := fun a b => decidable_of_iff _ (JValue.beq_iff a b)

abbrev Res (α : Type) := Except String α

/-- Python truthiness of a value. -/
def truthy : JValue → Bool
  | .null => false
  | .bool b => b
  | .num n => n != 0
  | .str s => !(s = "")
  | .arr xs => !xs.isEmpty
  | .obj fs => !fs.isEmpty

/-- First-match association-list lookup (Python dict lookup; keys are unique). -/
def lookupField : List (String × JValue) → String → Option JValue
  | [], _ => none
  | (k2, v) :: rest, k => if k2 = k then some v else lookupField rest k

/-- Python `d[k]` with a string key: KeyError when missing, TypeError on non-dicts. -/
def getItem (v : JValue) (k : String) : Res JValue :=
  match v with
  | .obj fs =>
    match lookupField fs k with
    | some x => .ok x
    | none => .error ("KeyError: " ++ k)
  | _ => .error "TypeError: not subscriptable with str key"

/-- Python `d.get(k)` (default None): AttributeError on non-dicts. -/
def pyGet (v : JValue) (k : String) : Res (Option JValue) :=
  match v with
  | .obj fs => .ok (lookupField fs k)
  | _ => .error "AttributeError: get"

/-- Python `d.get(k, default)`. A present null value is returned, not the default. -/
def pyGetD (v : JValue) (k : String) (d : JValue) : Res JValue :=
  (pyGet v k).map (fun o => o.getD d)

/-- Substring containment, for Python `"and" in s` on strings. -/
def strContains (s pat : String) : Bool :=
  s.data.tails.any (fun t => pat.data.isPrefixOf t)

/-- Python `k in v` for a string literal `k`: key test for dicts, membership for
lists, substring test for strings, TypeError otherwise. -/
def keyIn (v : JValue) (k : String) : Res Bool :=
  match v with
  | .obj fs => .ok (fs.any (fun p => p.1 = k))
  | .arr xs => .ok (xs.contains (.str k))
  | .str s => .ok (strContains s k)
  | _ => .error "TypeError: argument not iterable"

/-- Python iteration `for x in v`: list elements, string characters, dict keys. -/
def pyIterate (v : JValue) : Res (List JValue) :=
  match v with
  | .arr xs => .ok xs
  | .str s => .ok (s.data.map (fun c => .str (String.mk [c])))
  | .obj fs => .ok (fs.map (fun p => JValue.str p.1))
  | _ => .error "TypeError: not iterable"

/-- Python `v.upper()`: AttributeError on non-strings (character-wise ASCII
upcasing, which covers every string the configurations use). -/
def pyUpper : JValue → Res String
  | .str s => .ok (String.mk (s.data.map Char.toUpper))
  | _ => .error "AttributeError: upper"

/-- Python `v[0]` with an int index. -/
def pyIndex0 : JValue → Res JValue
  | .arr (x :: _) => .ok x
  | .arr [] => .error "IndexError: list index out of range"
  | .str s =>
    match s.data with
    | c :: _ => .ok (.str (String.mk [c]))
    | [] => .error "IndexError: string index out of range"
  | .obj _ => .error "KeyError: 0"
  | _ => .error "TypeError: not subscriptable"

/-- Whether a value is usable as a Python dict key (hashable). -/
def hashable : JValue → Bool
  | .arr _ => false
  | .obj _ => false
  | _ => true

/-- Python dict insertion `m[k] = v`: update in place when the key exists
(preserving its position), otherwise append. -/
def mapInsert (m : List (JValue × JValue)) (k v : JValue) : List (JValue × JValue) :=
  if m.any (fun p => p.1 = k) then m.map (fun p => if p.1 = k then (k, v) else p)
  else m ++ [(k, v)]

/-- Python `m.get(k)` on a dict with `JValue` keys (keys unique by construction). -/
def mapGet (m : List (JValue × JValue)) (k : JValue) : Option JValue :=
  (m.find? (fun p => p.1 = k)).map (fun p => p.2)

mutual

/-- Python `repr()` of a value. -/
def pyRepr : JValue → String
  | .null => "None"
  | .bool b => if b then "True" else "False"
  | .num n => toString n
  | .str s => "'" ++ s ++ "'"
  | .arr xs => "[" ++ pyReprList xs ++ "]"
  | .obj fs => "\x7b" ++ pyReprFields fs ++ "\x7d"
termination_by structural v => v

def pyReprList : List JValue → String
  | [] => ""
  | [x] => pyRepr x
  | x :: rest => pyRepr x ++ ", " ++ pyReprList rest
termination_by structural xs => xs

def pyReprFields : List (String × JValue) → String
  | [] => ""
  | [(k, v)] => "'" ++ k ++ "': " ++ pyRepr v
  | (k, v) :: rest => "'" ++ k ++ "': " ++ pyRepr v ++ ", " ++ pyReprFields rest
termination_by structural fs => fs

end

/-- Python `str()` (also f-string interpolation) of a value. -/
def pyStr : JValue → String
  | .str s => s
  | v => pyRepr v

/-! ## AST node types (shared vocabulary of `json_to_ast.py`)

The Python code represents AST nodes as dicts carrying a `"type"` tag
(`NodeType`); the embedding encodes each node kind as a constructor and drops
the constant tag. Operator enumerations (`ComparisonOp`, `LogicalOp`) are
string-valued in the Python AST (`op.value`) and stay strings here, since the
Emitter dispatches on the raw strings. -/

/-- Value references: Literal / PriceReference / IndicatorReference nodes. -/
inductive Value where
  | literal (value : JValue) (dataType : String)
  | price_ref (symbol : JValue)
  | indicator_ref (name : JValue)
deriving Repr, DecidableEq

/-- Expression nodes: Comparison / LogicalExpression. -/
inductive Expr where
  | comparison (left : Value) (operator : String) (right : Value)
  | logical (operator : String) (operands : List Expr)
deriving Repr

mutual

def Expr.beq : Expr → Expr → Bool
  | .comparison l1 o1 r1, .comparison l2 o2 r2 => l1 = l2 && o1 = o2 && r1 = r2
  | .logical o1 xs, .logical o2 ys => o1 = o2 && Expr.beqList xs ys
  | _, _ => false

def Expr.beqList : List Expr → List Expr → Bool
  | [], [] => true
  | a :: as2, b :: bs => Expr.beq a b && Expr.beqList as2 bs
  | _, _ => false

end

theorem Expr.sizeOf_mem {x : Expr} {xs : List Expr} {o : String} (h : x ∈ xs) :
    sizeOf x < sizeOf (Expr.logical o xs) := by
  have := List.sizeOf_lt_of_mem h
  simp only [Expr.logical.sizeOf_spec]
  omega

theorem Expr.beqList_iff_elems {xs ys : List Expr}
    (ihel : ∀ x ∈ xs, ∀ y : Expr, Expr.beq x y = true ↔ x = y) :
    Expr.beqList xs ys = true ↔ xs = ys := by
  induction xs generalizing ys with
  | nil => cases ys <;> simp [Expr.beqList]
  | cons x rest ih =>
    cases ys with
    | nil => simp [Expr.beqList]
    | cons y rest2 =>
      simp only [Expr.beqList, Bool.and_eq_true, List.cons.injEq]
      rw [ihel x (by simp) y, ih (fun z hz => ihel z (by simp [hz]))]

theorem Expr.beq_eq_iff : ∀ a b : Expr, Expr.beq a b = true ↔ a = b := by
  have main : ∀ (n : Nat) (a b : Expr), sizeOf a ≤ n →
      (Expr.beq a b = true ↔ a = b) := by
    intro n
    induction n using Nat.strong_induction_on with
    | _ n ih =>
      intro a b ha
      match a, b with
      | .comparison l1 o1 r1, b =>
        cases b <;> simp [Expr.beq, and_assoc]
      | .logical o1 xs, b =>
        cases b with
        | logical o2 ys =>
          simp only [Expr.beq, Bool.and_eq_true, decide_eq_true_eq, Expr.logical.injEq]
          rw [Expr.beqList_iff_elems (fun x hx y =>
            ih (sizeOf x) (lt_of_lt_of_le (Expr.sizeOf_mem hx) ha) x y le_rfl)]
        | comparison _ _ _ => simp [Expr.beq]

  exact fun a b => main (sizeOf a) a b le_rfl

instance : DecidableEq Expr := fun a b => decidable_of_iff _ (Expr.beq_eq_iff a b)

/-- Position node built by `_transform_action`. -/
structure Position where
  direction : String
  symbol : JValue
  order_type : String
  max_size : Option JValue := none
  percent : Option JValue := none
deriving Repr, DecidableEq

/-- OrderAction node. -/
structure OrderAction where
  action_type : String
  position : Position
deriving Repr, DecidableEq

/-- Rule node. -/
structure Rule where
  name : String
  condition : Expr
  action : OrderAction
deriving Repr, DecidableEq

/-- IndicatorDefinition node. -/
structure IndicatorDef where
  name : JValue
  indicator_type : String
  params : JValue
deriving Repr, DecidableEq

/-- TradingStrategy root node. -/
structure StrategyAST where
  symbol : JValue
  indicators : List IndicatorDef
  rules : List Rule
deriving Repr, DecidableEq

/-! ## Normalizer (`json_to_ast.py`, `StrategyTransformer`) -/

/-- The always-true sentinel `Literal(1) EQUALS Literal(1)`. -/
def sentinel : Expr :=
  .comparison (.literal (.num 1) "number") "EQUALS" (.literal (.num 1) "number")

/-- The operator token table shared by `_transform_price_comparison`,
`_transform_indicator_comparison` and `_transform_indicator_event`:
`op_map.get(operator)` (TypeError on unhashable keys). -/
def op_map_get (operator : JValue) : Res (Option String) :=
  if hashable operator then
    .ok (if operator = .str "<" then some "LESS_THAN"
      else if operator = .str ">" then some "GREATER_THAN"
      else if operator = .str "<=" then some "LESS_THAN_OR_EQUAL"
      else if operator = .str ">=" then some "GREATER_THAN_OR_EQUAL"
      else if operator = .str "==" then some "EQUALS"
      else if operator = .str "!=" then some "NOT_EQUALS"
      else none)
  else .error "TypeError: unhashable type"

/-- `StrategyTransformer._transform_price_condition`. -/
def transform_price_condition (symbol : JValue) (params : JValue) : Res Expr := do
  let event_type ← pyGetD params "event_type" (.str "")
  let threshold ← pyGetD params "threshold" (.num 0)
  let direction ← pyGetD params "direction" (.str "")
  if event_type = .str "cross" then
    let op := if direction = .str "below" then "LESS_THAN"
      else if direction = .str "above" then "GREATER_THAN"
      else "EQUALS"
    return .comparison (.price_ref symbol) op (.literal threshold "number")
  else
    let op := if event_type = .str "above" then "GREATER_THAN"
      else if event_type = .str "below" then "LESS_THAN"
      else "EQUALS"
    return .comparison (.price_ref symbol) op (.literal threshold "number")

/-- `StrategyTransformer._transform_price_comparison`. -/
def transform_price_comparison (symbol : JValue) (params : JValue) : Res Expr := do
  let operator ← pyGetD params "operator" (.str ">")
  let value ← pyGetD params "value" (.num 0)
  let opo ← op_map_get operator
  return .comparison (.price_ref symbol) (opo.getD "GREATER_THAN") (.literal value "number")

/-- `StrategyTransformer._transform_indicator_comparison`. A present JSON null
in `value` loads as Python None, so `value is not None` treats it as absent. -/
def transform_indicator_comparison (params : JValue) : Res Expr := do
  let indicator1 ← pyGetD params "indicator1" (.str "")
  let indicator2 ← pyGetD params "indicator2" (.str "")
  let operator ← pyGetD params "operator" (.str ">")
  let value := (← pyGet params "value").bind
    (fun v => match v with | .null => none | v => some v)
  let left := Value.indicator_ref indicator1
  let right := if truthy indicator2 then Value.indicator_ref indicator2
    else match value with
      | some v => Value.literal v "number"
      | none => Value.literal (.num 0) "number"
  let opo ← op_map_get operator
  return .comparison left (opo.getD "GREATER_THAN") right

/-- `StrategyTransformer._transform_indicator_event`. -/
def transform_indicator_event (params : JValue) : Res Expr := do
  let indicator ← pyGetD params "indicator" (.str "")
  let event_type ← pyGetD params "event_type" (.str "")
  let threshold ← pyGetD params "threshold" (.num 0)
  let direction ← pyGetD params "direction" (.str "")
  let operator := (← pyGet params "operator").bind
    (fun v => match v with | .null => none | v => some v)
  let op ←
    if event_type = .str "cross" then
      pure (if direction = .str "above" then "GREATER_THAN"
        else if direction = .str "below" then "LESS_THAN"
        else "EQUALS")
    else if event_type = .str "above" ∨ direction = .str "above" then pure "GREATER_THAN"
    else if event_type = .str "below" ∨ direction = .str "below" then pure "LESS_THAN"
    else if (match operator with | some v => truthy v | none => false) then do
      let opo ← op_map_get (operator.getD .null)
      pure (opo.getD "GREATER_THAN")
    else pure "GREATER_THAN"
  return .comparison (.indicator_ref indicator) op (.literal threshold "number")

/-- The list comprehension `[f(cond) for cond in items]` over a fallible
lowering function. -/
def transform_condition_list (f : JValue → Res Expr) : List JValue → Res (List Expr)
  | [] => .ok []
  | c :: rest => do
    let e ← f c
    let es ← transform_condition_list f rest
    return e :: es

mutual

/-- `StrategyTransformer._transform_trigger_conditions`. The `fuel` argument
models the (finite) Python recursion depth; every recursive call in the source
decrements it by one. -/
def transform_trigger_conditions (symbol : JValue) : Nat → JValue → Res Expr
  | 0, _ => .error "RecursionError"
  | fuel+1, trigger => do
    if (← keyIn trigger "and") then
      let items ← pyIterate (← getItem trigger "and")
      let operands ← transform_condition_list (transform_condition symbol fuel) items
      match operands with
      | [op] => return op
      | _ => return .logical "AND" operands
    else if (← keyIn trigger "or") then
      let items ← pyIterate (← getItem trigger "or")
      let operands ← transform_condition_list (transform_condition symbol fuel) items
      match operands with
      | [op] => return op
      | _ => return .logical "OR" operands
    else
      let keys ← pyIterate trigger
      if keys.any (fun k =>
          !(k = .str "actions" ∨ k = .str "id" ∨ k = .str "name" : Bool)) then
        transform_condition symbol fuel trigger
      else
        return sentinel

/-- `StrategyTransformer._transform_condition`. -/
def transform_condition (symbol : JValue) : Nat → JValue → Res Expr
  | 0, _ => .error "RecursionError"
  | fuel+1, condition => do
    let cond_type ← pyGetD condition "type" (.str "")
    let params ← pyGetD condition "params" (.obj [])
    if cond_type = .str "price_move" then transform_price_condition symbol params
    else if cond_type = .str "indicator_comparison" then transform_indicator_comparison params
    else if cond_type = .str "indicator_event" then transform_indicator_event params
    else if cond_type = .str "price_comparison" then transform_price_comparison symbol params
    else if (← keyIn condition "and") then transform_trigger_conditions symbol fuel condition
    else if (← keyIn condition "or") then transform_trigger_conditions symbol fuel condition
    else return sentinel

end

/-- `StrategyTransformer._transform_action`. -/
def transform_action (symbol : JValue) (action : JValue) : Res OrderAction := do
  let action_type ← pyGetD action "type" (.str "")
  let direction ← pyGetD action "direction" (.str "")
  let act_type ←
    if action_type = .str "entry" then pure "OPEN_POSITION"
    else if action_type = .str "exit" then pure "CLOSE_POSITION"
    else pyUpper action_type
  let dirStr ← if truthy direction then pyUpper direction else pure "LONG"
  let order1 ← pyGetD action "order" (.obj [])
  let psymbol ← pyGetD order1 "symbol" symbol
  let order2 ← pyGetD action "order" (.obj [])
  let orderTypeV ← pyGetD order2 "type" (.str "market")
  let order_type ← pyUpper orderTypeV
  let base : Position :=
    { direction := dirStr, symbol := psymbol, order_type := order_type }
  let position ←
    if action_type = .str "entry" then do
      let ms ← pyGetD action "max_position_size" (.num 1)
      pure { base with max_size := some ms }
    else if action_type = .str "exit" then do
      let pc ← pyGetD action "percent_of_position" (.num 100)
      pure { base with percent := some pc }
    else pure base
  return { action_type := act_type, position := position }

/-- The accumulation loop of the id-map dict comprehensions. -/
def buildMap_loop (m : List (JValue × JValue)) : List JValue → Res (List (JValue × JValue))
  | [] => .ok m
  | x :: rest => do
    let k ← getItem x "id"
    if hashable k then buildMap_loop (mapInsert m k x) rest
    else .error "TypeError: unhashable type"

/-- `_build_indicators_map` / `_build_actions_map`:
`{x['id']: x for x in items}` (TypeError on unhashable ids). -/
def buildMap (items : JValue) : Res (List (JValue × JValue)) := do
  let xs ← pyIterate items
  buildMap_loop [] xs

/-- The rule name `f"{action_id}_rule" if action_id else f"rule_{i}"`. -/
def ruleName (action_id : JValue) (i : Nat) : String :=
  if truthy action_id then pyStr action_id ++ "_rule" else "rule_" ++ toString i

/-- The inner loop of `_transform_triggers`: one Rule appended per referenced
action id that resolves (truthily) in the actions map. -/
def rulesForTrigger (symbol : JValue) (amap : List (JValue × JValue)) (i : Nat)
    (condition : Expr) : List JValue → Res (List Rule)
  | [] => .ok []
  | aid :: rest => do
    if hashable aid then
      match mapGet amap aid with
      | some action =>
        if truthy action then do
          let oa ← transform_action symbol action
          let rs ← rulesForTrigger symbol amap i condition rest
          return { name := ruleName aid i, condition := condition, action := oa } :: rs
        else rulesForTrigger symbol amap i condition rest
      | none => rulesForTrigger symbol amap i condition rest
    else .error "TypeError: unhashable type"

/-- The outer loop of `_transform_triggers` (`for i, trigger in enumerate(...)`). -/
def transform_triggers_loop (symbol : JValue) (amap : List (JValue × JValue))
    (fuel : Nat) : Nat → List JValue → Res (List Rule)
  | _, [] => .ok []
  | i, trigger :: rest => do
    let condition ← transform_trigger_conditions symbol fuel trigger
    let ids ← pyIterate (← pyGetD trigger "actions" (.arr []))
    let here ← rulesForTrigger symbol amap i condition ids
    let rs ← transform_triggers_loop symbol amap fuel (i+1) rest
    return here ++ rs

/-- The loop body of `_transform_indicators`: one IndicatorDefinition appended
per configured indicator. -/
def transform_indicators_list : List JValue → Res (List IndicatorDef)
  | [] => .ok []
  | indicator :: rest => do
    let name ← getItem indicator "id"
    let tyU ← pyUpper (← getItem indicator "type")
    let params ← pyGetD indicator "params" (.obj [])
    let rs ← transform_indicators_list rest
    return { name := name, indicator_type := tyU, params := params } :: rs

/-- `StrategyTransformer._transform_indicators`. -/
def transform_indicators (strategy : List (String × JValue)) : Res (List IndicatorDef) := do
  let inds ← pyIterate ((lookupField strategy "indicators").getD (.arr []))
  transform_indicators_list inds

/-- Symbol resolution in `StrategyTransformer.__init__`:
`strategy_json['symbols'][0] if strategy_json.get('symbols') else 'UNKNOWN'`. -/
def resolveSymbol (strategy : List (String × JValue)) : Res JValue :=
  match lookupField strategy "symbols" with
  | some v => if truthy v then pyIndex0 v else .ok (.str "UNKNOWN")
  | none => .ok (.str "UNKNOWN")

mutual

/-- Executable structural size of a value (the derived `sizeOf` of the nested
inductive has no compiled code), used only to budget the recursion depth. -/
def jsize : JValue → Nat
  | .null => 1
  | .bool _ => 1
  | .num _ => 1
  | .str _ => 1
  | .arr xs => 1 + jsizeList xs
  | .obj fs => 1 + jsizeFields fs

def jsizeList : List JValue → Nat
  | [] => 0
  | x :: rest => 1 + jsize x + jsizeList rest

def jsizeFields : List (String × JValue) → Nat
  | [] => 0
  | (_, v) :: rest => 1 + jsize v + jsizeFields rest

end

/-- Recursion-depth budget passed to the condition lowering; any bound
exceeding the nesting depth of the configuration suffices (the Python code
recurses structurally into strictly smaller subvalues). -/
def strategyFuel (strategy : List (String × JValue)) : Nat :=
  2 * jsizeFields strategy + 4

/-- `transform_strategy` / `StrategyTransformer.transform`: `__init__` resolves
the symbol and builds both id maps (in that order), then `transform` lowers
indicators and triggers. The constant `"type": "TradingStrategy"` tag is
implicit in the `StrategyAST` structure. -/
def transform_strategy (strategy : List (String × JValue)) : Res StrategyAST := do
  let symbol ← resolveSymbol strategy
  let _imap ← buildMap ((lookupField strategy "indicators").getD (.arr []))
  let amap ← buildMap ((lookupField strategy "actions").getD (.arr []))
  let indicators ← transform_indicators strategy
  let triggers ← pyIterate ((lookupField strategy "triggers").getD (.arr []))
  let rules ← transform_triggers_loop symbol amap (strategyFuel strategy) 0 triggers
  return { symbol := symbol, indicators := indicators, rules := rules }

/-! ## Emitter (`ast_to_code.py`, `JavaScriptGenerator`)

The generator's `indent_level` counter is threaded explicitly: each function
takes the current level and returns the level it leaves behind, so the
statefulness of the Python object across successive `generate()` calls is
visible. The renderers cover exactly the node kinds the AST types admit; the
Python fallbacks for foreign `type` tags (`return "true"` / `return "null"`)
have no counterpart in the closed `Expr`/`Value` variants. -/

/-- `JavaScriptGenerator.generate_comparison_operator`: an unguarded dict
index, KeyError on any string outside the six-key table. -/
def generate_comparison_operator (op : String) : Res String :=
  if op = "LESS_THAN" then .ok "<"
  else if op = "GREATER_THAN" then .ok ">"
  else if op = "LESS_THAN_OR_EQUAL" then .ok "<="
  else if op = "GREATER_THAN_OR_EQUAL" then .ok ">="
  else if op = "EQUALS" then .ok "==="
  else if op = "NOT_EQUALS" then .ok "!=="
  else .error ("KeyError: " ++ op)

/-- `JavaScriptGenerator.get_value_js`. `val['name'].replace('_', '')` raises
AttributeError when the indicator name is not a string. -/
def get_value_js : Value → Res String
  | .literal v _ => .ok (pyStr v)
  | .price_ref _ => .ok "price"
  | .indicator_ref (.str name) =>
    .ok (String.mk (name.data.filter (fun c => !(c = '_'))))
  | .indicator_ref _ => .error "AttributeError: replace"

mutual

/-- `JavaScriptGenerator.generate_condition_js`. -/
def generate_condition_js : Expr → Res String
  | .comparison left operator right => do
    let l ← get_value_js left
    let r ← get_value_js right
    let op ← generate_comparison_operator operator
    return l ++ " " ++ op ++ " " ++ r
  | .logical operator operands => do
    let op := if operator = "AND" then " && " else " || "
    let parts ← generate_operand_list operands
    return String.intercalate op parts
termination_by structural e => e

/-- The comprehension `[f"({self.generate_condition_js(c)})" for c in operands]`. -/
def generate_operand_list : List Expr → Res (List String)
  | [] => .ok []
  | c :: rest => do
    let s ← generate_condition_js c
    let rs ← generate_operand_list rest
    return ("(" ++ s ++ ")") :: rs
termination_by structural cs => cs

end

/-- `self.indent_str * self.indent_level` with the fixed two-space unit. -/
def indentOf (level : Nat) : String := String.join (List.replicate level "  ")

/-- The rule loop inside `JavaScriptGenerator.generate`, threading the
indentation counter. -/
def generate_rules_loop : Nat → List Rule → Res (List String × Nat)
  | lvl, [] => .ok ([], lvl)
  | lvl, rule :: rest =>
    if rule.name = "entry_long_rule" then do
      let line1 := indentOf lvl ++ "checkEntry(price, rsi14, ema50, ema200) \x7b"
      let lvl1 := lvl + 1
      let conditions ← generate_condition_js rule.condition
      let line2 := indentOf lvl1 ++ "return " ++ conditions ++ ";"
      let lvl2 := lvl1 - 1
      let line3 := indentOf lvl2 ++ "\x7d"
      let (ls, lvlEnd) ← generate_rules_loop lvl2 rest
      return ([line1, line2, line3, ""] ++ ls, lvlEnd)
    else if rule.name = "exit_long_rule" then do
      let line1 := indentOf lvl ++ "checkExit(ema50, ema200) \x7b"
      let lvl1 := lvl + 1
      let conditions ← generate_condition_js rule.condition
      let line2 := indentOf lvl1 ++ "return " ++ conditions ++ ";"
      let lvl2 := lvl1 - 1
      let line3 := indentOf lvl2 ++ "\x7d"
      let (ls, lvlEnd) ← generate_rules_loop lvl2 rest
      return ([line1, line2, line3] ++ ls, lvlEnd)
    else generate_rules_loop lvl rest

/-- `JavaScriptGenerator.generate`, from the indent level the generator holds
when the call starts (0 for a freshly constructed generator). -/
def generate (ast : StrategyAST) (lvl : Nat) : Res (String × Nat) := do
  let header := "// Generated JavaScript Trading Strategy"
  let classLine := "class " ++ pyStr ast.symbol ++ "Strategy \x7b"
  let lvl1 := lvl + 1
  let (ruleLines, lvl2) ← generate_rules_loop lvl1 ast.rules
  let lvl3 := lvl2 - 1
  return (String.intercalate "\n" ([header, classLine] ++ ruleLines ++ ["\x7d"]), lvl3)

end QSDL


namespace QSDL

/-! ## The sample configuration (`main.py`, `json_to_ast`) -/

/-- The hardcoded sample strategy configuration from `main.py`. -/
def sampleConfig : List (String × JValue) :=
  [("symbols", .arr [.str "TSLA"]),
   ("indicators", .arr [
     .obj [("id", .str "ema_50"), ("type", .str "ema"), ("symbol", .str "TSLA"),
           ("params", .obj [("period", .num 50)])],
     .obj [("id", .str "ema_200"), ("type", .str "ema"), ("symbol", .str "TSLA"),
           ("params", .obj [("period", .num 200)])],
     .obj [("id", .str "rsi_14"), ("type", .str "rsi"), ("symbol", .str "TSLA"),
           ("params", .obj [("period", .num 14)])]]),
   ("triggers", .arr [
     .obj [("and", .arr [
       .obj [("type", .str "price_move"),
             ("params", .obj [("event_type", .str "cross"), ("threshold", .num 430),
                              ("direction", .str "below")])],
       .obj [("type", .str "indicator_comparison"),
             ("params", .obj [("indicator1", .str "ema_50"), ("indicator2", .str "ema_200"),
                              ("operator", .str ">")])],
       .obj [("type", .str "indicator_event"),
             ("params", .obj [("indicator", .str "rsi_14"), ("event_type", .str "cross"),
                              ("threshold", .num 60), ("direction", .str "above")])]]),
       ("actions", .arr [.str "entry_long"])],
     .obj [("and", .arr [
       .obj [("type", .str "indicator_comparison"),
             ("params", .obj [("indicator1", .str "ema_50"), ("indicator2", .str "ema_200"),
                              ("operator", .str "<")])]]),
       ("actions", .arr [.str "exit_long"])]]),
   ("actions", .arr [
     .obj [("id", .str "entry_long"), ("type", .str "entry"), ("direction", .str "long"),
           ("max_position_size", .num 10),
           ("order", .obj [("symbol", .str "TSLA"), ("type", .str "market"),
                           ("tif", .str "day")])],
     .obj [("id", .str "exit_long"), ("type", .str "exit"), ("direction", .str "long"),
           ("percent_of_position", .num 100),
           ("order", .obj [("symbol", .str "TSLA"), ("type", .str "market"),
                           ("tif", .str "day")])]])]

/-- The 3-operand AND condition the sample's entry trigger lowers to. -/
def sampleEntryCondition : Expr :=
  .logical "AND"
    [.comparison (.price_ref (.str "TSLA")) "LESS_THAN" (.literal (.num 430) "number"),
     .comparison (.indicator_ref (.str "ema_50")) "GREATER_THAN"
       (.indicator_ref (.str "ema_200")),
     .comparison (.indicator_ref (.str "rsi_14")) "GREATER_THAN"
       (.literal (.num 60) "number")]

/-- The source text the Emitter produces for the sample configuration. -/
def sampleEmittedJS : String :=
  "// Generated JavaScript Trading Strategy\nclass TSLAStrategy \x7b\n  checkEntry(price, rsi14, ema50, ema200) \x7b\n    return (price < 430) && (ema50 > ema200) && (rsi14 > 60);\n  \x7d\n\n  checkExit(ema50, ema200) \x7b\n    return ema50 < ema200;\n  \x7d\n\x7d"

set_option maxRecDepth 40000

/-- **C1** (confirmed). End-to-end scenario: on the sample configuration,
`normalize` produces a first Rule named `entry_long_rule` whose condition is
the 3-operand AND of (price LESS_THAN 430), (ema_50 GREATER_THAN ema_200),
(rsi_14 GREATER_THAN 60); the rendered body of that condition is exactly
`(price < 430) && (ema50 > ema200) && (rsi14 > 60)`; and emitting the
normalized AST yields the full source text whose `checkEntry` method returns
exactly that expression. -/
theorem c1_end_to_end :
    (transform_strategy sampleConfig).map
        (fun a => a.rules.map (fun r => (r.name, r.condition)))
      = .ok [("entry_long_rule", sampleEntryCondition),
             ("exit_long_rule",
              .comparison (.indicator_ref (.str "ema_50")) "LESS_THAN"
                (.indicator_ref (.str "ema_200")))]
    ∧ generate_condition_js sampleEntryCondition
      = .ok "(price < 430) && (ema50 > ema200) && (rsi14 > 60)"
    ∧ (transform_strategy sampleConfig).bind (fun a => generate a 0)
      = .ok (sampleEmittedJS, 0) :=
  ⟨rfl, by rfl, by rfl⟩

end QSDL

namespace QSDL

/-! ## Operator symmetry (C4) -/

/-- **C4** (confirmed). Operator symmetry round-trip: each of the six operator
tokens maps (via the Normalizer's `op_map`) to the enumeration value that the
Emitter's operator table renders back as `<`, `>`, `<=`, `>=`, `===`, `!==`
respectively — EQUALS and NOT_EQUALS render as the strict-equality tokens. -/
theorem c4_operator_symmetry :
    (op_map_get (.str "<") = .ok (some "LESS_THAN")
      ∧ generate_comparison_operator "LESS_THAN" = .ok "<")
    ∧ (op_map_get (.str ">") = .ok (some "GREATER_THAN")
      ∧ generate_comparison_operator "GREATER_THAN" = .ok ">")
    ∧ (op_map_get (.str "<=") = .ok (some "LESS_THAN_OR_EQUAL")
      ∧ generate_comparison_operator "LESS_THAN_OR_EQUAL" = .ok "<=")
    ∧ (op_map_get (.str ">=") = .ok (some "GREATER_THAN_OR_EQUAL")
      ∧ generate_comparison_operator "GREATER_THAN_OR_EQUAL" = .ok ">=")
    ∧ (op_map_get (.str "==") = .ok (some "EQUALS")
      ∧ generate_comparison_operator "EQUALS" = .ok "===")
    ∧ (op_map_get (.str "!=") = .ok (some "NOT_EQUALS")
      ∧ generate_comparison_operator "NOT_EQUALS" = .ok "!==") :=
  ⟨⟨rfl, rfl⟩, ⟨rfl, rfl⟩, ⟨rfl, rfl⟩, ⟨rfl, rfl⟩, ⟨rfl, rfl⟩, ⟨rfl, rfl⟩⟩

/-! ## Key-presence helper lemmas -/

theorem lookupField_any_eq {fs : List (String × JValue)} {k : String} :
    (fs.any (fun p => p.1 = k)) = (lookupField fs k).isSome := by
  induction fs with
  | nil => simp [lookupField]
  | cons p rest ih =>
    obtain ⟨k2, v⟩ := p
    by_cases h : k2 = k <;> simp [lookupField, h, ih]

theorem keyIn_obj {fs : List (String × JValue)} {k : String} :
    keyIn (.obj fs) k = .ok ((lookupField fs k).isSome) := by
  simp [keyIn, lookupField_any_eq]

/-! ## Collapse law (C3) -/

/-- **C3** (confirmed). Collapse law: a trigger whose `and` (or, with no `and`
key, whose `or`) list contains exactly one member lowers to exactly the
lowering of that single member — in particular never to a one-operand
LogicalExpression wrapper (the two computations agree as fallible results). -/
theorem c3_collapse (symbol : JValue) (fuel : Nat) (fs : List (String × JValue)) (c : JValue)
    (h : lookupField fs "and" = some (.arr [c])
       ∨ (lookupField fs "and" = none ∧ lookupField fs "or" = some (.arr [c]))) :
    transform_trigger_conditions symbol (fuel+1) (.obj fs)
      = transform_condition symbol fuel c := by
  rcases h with h | ⟨hno, h⟩
  · cases he : transform_condition symbol fuel c <;>
      simp [transform_trigger_conditions, keyIn_obj, h, getItem, pyIterate,
        transform_condition_list, he, Bind.bind, Except.bind, pure, Except.pure]
  · cases he : transform_condition symbol fuel c <;>
      simp [transform_trigger_conditions, keyIn_obj, h, hno, getItem, pyIterate,
        transform_condition_list, he, Bind.bind, Except.bind, pure, Except.pure]

theorem c3_collapse_witness :
    transform_trigger_conditions (.str "S") 4
        (.obj [("and", .arr [.obj [("type", .str "price_comparison"),
           ("params", .obj [("operator", .str "<"), ("value", .num 5)])]]),
               ("actions", .arr [])])
      = transform_condition (.str "S") 3
          (.obj [("type", .str "price_comparison"),
           ("params", .obj [("operator", .str "<"), ("value", .num 5)])]) :=
  c3_collapse (.str "S") 3 _ _ (Or.inl rfl)

end QSDL

namespace QSDL

/-! ## Sentinel fallbacks (C9) -/

/-- **C9** (corrected). The always-true sentinel fallbacks: a condition whose
`type` tag is unrecognized *and which carries no `and`/`or` key* lowers to the
sentinel `Literal(1) EQUALS Literal(1)`; a trigger with no `and`/`or` key and
no key outside the reserved set `{actions, id, name}` lowers to the same
sentinel. (The claim's unqualified condition case is false: an unrecognized
`type` tag alongside an `and` key recurses instead — see the counterexample.) -/
theorem c9_sentinel (symbol : JValue) (fuel : Nat) (fs : List (String × JValue)) :
    (((lookupField fs "type").getD (.str "") ∉
        [JValue.str "price_move", JValue.str "indicator_comparison",
         JValue.str "indicator_event", JValue.str "price_comparison"]) →
      lookupField fs "and" = none → lookupField fs "or" = none →
      transform_condition symbol (fuel+1) (.obj fs) = .ok sentinel)
    ∧ (lookupField fs "and" = none → lookupField fs "or" = none →
      (∀ p ∈ fs, p.1 = "actions" ∨ p.1 = "id" ∨ p.1 = "name") →
      transform_trigger_conditions symbol (fuel+1) (.obj fs) = .ok sentinel) := by
  constructor
  · intro htype hand hor
    simp only [List.mem_cons, List.not_mem_nil, or_false, not_or] at htype
    obtain ⟨h1, h2, h3, h4⟩ := htype
    simp [transform_condition, pyGetD, pyGet, keyIn_obj, hand, hor, h1, h2, h3, h4,
      Bind.bind, Except.bind, pure, Except.pure, Except.map]
  · intro hand hor hres
    simp [transform_trigger_conditions, keyIn_obj, hand, hor, pyIterate,
      Bind.bind, Except.bind, pure, Except.pure]
    intro x y hmem hxa hxi hxn
    rcases hres (x, y) hmem with h | h | h
    · exact absurd h hxa
    · exact absurd h hxi
    · exact absurd h hxn

theorem c9_sentinel_witness :
    transform_condition (.str "S") 4 (.obj [("type", .str "weird")]) = .ok sentinel
    ∧ transform_trigger_conditions (.str "S") 4 (.obj [("actions", .arr [])]) = .ok sentinel :=
  ⟨(c9_sentinel (.str "S") 3 [("type", .str "weird")]).1 (by decide) rfl rfl,
   (c9_sentinel (.str "S") 3 [("actions", .arr [])]).2 rfl rfl (by decide)⟩

/-- **C9 counterexample**. The claim as stated is false: the condition
`{type: "unknown_type", and: []}` has an unrecognized `type` tag, yet it
lowers to an (empty) LogicalExpression — the `and` key takes precedence over
the sentinel fallback — not to the always-true sentinel. -/
theorem c9_counterexample :
    transform_condition (.str "S") 3
        (.obj [("type", .str "unknown_type"), ("and", .arr [])])
      = .ok (.logical "AND" [])
    ∧ Expr.logical "AND" [] ≠ sentinel :=
  ⟨rfl, by decide⟩

end QSDL

namespace QSDL

/-! ## Structural invariants of lowered expressions (C5, C10) -/

/-- The six `ComparisonOp` enumeration value strings. -/
def comparisonOps : List String :=
  ["LESS_THAN", "GREATER_THAN", "LESS_THAN_OR_EQUAL", "GREATER_THAN_OR_EQUAL",
   "EQUALS", "NOT_EQUALS"]

mutual

/-- No LogicalExpression node anywhere in the tree has exactly one operand. -/
def noUnary : Expr → Bool
  | .comparison _ _ _ => true
  | .logical _ ops => (!(ops.length = 1)) && noUnaryList ops
termination_by structural e => e

def noUnaryList : List Expr → Bool
  | [] => true
  | e :: rest => noUnary e && noUnaryList rest
termination_by structural es => es

end

mutual

/-- Every Comparison node anywhere in the tree carries one of the six
enumeration operator strings. -/
def opsValid : Expr → Bool
  | .comparison _ op _ => decide (op ∈ comparisonOps)
  | .logical _ ops => opsValidList ops
termination_by structural e => e

def opsValidList : List Expr → Bool
  | [] => true
  | e :: rest => opsValid e && opsValidList rest
termination_by structural es => es

end

theorem op_map_get_mem {v : JValue} {o : Option String} (h : op_map_get v = .ok o) :
    o.getD "GREATER_THAN" ∈ comparisonOps := by
  unfold op_map_get at h
  split_ifs at h <;> (try cases h) <;> simp [comparisonOps]

theorem sentinel_wf : noUnary sentinel = true ∧ opsValid sentinel = true := by
  simp [sentinel, noUnary, opsValid, comparisonOps]

theorem transform_price_condition_wf {symbol params : JValue} {e : Expr}
    (h : transform_price_condition symbol params = .ok e) :
    noUnary e = true ∧ opsValid e = true := by
  unfold transform_price_condition at h
  cases h1 : pyGetD params "event_type" (.str "") with
  | error err => simp [h1, Bind.bind, Except.bind] at h
  | ok et =>
    cases h2 : pyGetD params "threshold" (.num 0) with
    | error err => simp [h1, h2, Bind.bind, Except.bind] at h
    | ok th =>
      cases h3 : pyGetD params "direction" (.str "") with
      | error err => simp [h1, h2, h3, Bind.bind, Except.bind] at h
      | ok dir =>
        simp only [h1, h2, h3, Bind.bind, Except.bind, pure, Except.pure] at h
        split_ifs at h <;>
          (simp only [Except.ok.injEq] at h; subst h;
           simp [noUnary, opsValid, comparisonOps])

theorem transform_price_comparison_wf {symbol params : JValue} {e : Expr}
    (h : transform_price_comparison symbol params = .ok e) :
    noUnary e = true ∧ opsValid e = true := by
  unfold transform_price_comparison at h
  cases h1 : pyGetD params "operator" (.str ">") with
  | error err => simp [h1, Bind.bind, Except.bind] at h
  | ok op =>
    cases h2 : pyGetD params "value" (.num 0) with
    | error err => simp [h1, h2, Bind.bind, Except.bind] at h
    | ok v =>
      cases h3 : op_map_get op with
      | error err => simp [h1, h2, h3, Bind.bind, Except.bind] at h
      | ok o =>
        simp only [h1, h2, h3, Bind.bind, Except.bind, pure, Except.pure,
          Except.ok.injEq] at h
        subst h
        exact ⟨rfl, by simpa [opsValid] using op_map_get_mem h3⟩

theorem transform_indicator_comparison_wf {params : JValue} {e : Expr}
    (h : transform_indicator_comparison params = .ok e) :
    noUnary e = true ∧ opsValid e = true := by
  unfold transform_indicator_comparison at h
  cases h1 : pyGetD params "indicator1" (.str "") with
  | error err => simp [h1, Bind.bind, Except.bind] at h
  | ok i1 =>
    cases h2 : pyGetD params "indicator2" (.str "") with
    | error err => simp [h1, h2, Bind.bind, Except.bind] at h
    | ok i2 =>
      cases h3 : pyGetD params "operator" (.str ">") with
      | error err => simp [h1, h2, h3, Bind.bind, Except.bind] at h
      | ok op =>
        cases h4 : pyGet params "value" with
        | error err => simp [h1, h2, h3, h4, Bind.bind, Except.bind] at h
        | ok vo =>
          cases h5 : op_map_get op with
          | error err => simp [h1, h2, h3, h4, h5, Bind.bind, Except.bind] at h
          | ok o =>
            simp only [h1, h2, h3, h4, h5, Bind.bind, Except.bind, pure, Except.pure,
              Except.ok.injEq] at h
            subst h
            exact ⟨rfl, by simpa [opsValid] using op_map_get_mem h5⟩

theorem transform_indicator_event_wf {params : JValue} {e : Expr}
    (h : transform_indicator_event params = .ok e) :
    noUnary e = true ∧ opsValid e = true := by
  unfold transform_indicator_event at h
  cases h1 : pyGetD params "indicator" (.str "") with
  | error err => simp [h1, Bind.bind, Except.bind] at h
  | ok ind =>
    cases h2 : pyGetD params "event_type" (.str "") with
    | error err => simp [h1, h2, Bind.bind, Except.bind] at h
    | ok et =>
      cases h3 : pyGetD params "threshold" (.num 0) with
      | error err => simp [h1, h2, h3, Bind.bind, Except.bind] at h
      | ok th =>
        cases h4 : pyGetD params "direction" (.str "") with
        | error err => simp [h1, h2, h3, h4, Bind.bind, Except.bind] at h
        | ok dir =>
          cases h5 : pyGet params "operator" with
          | error err => simp [h1, h2, h3, h4, h5, Bind.bind, Except.bind] at h
          | ok opo =>
            simp only [h1, h2, h3, h4, h5, Bind.bind, Except.bind, pure, Except.pure] at h
            split_ifs at h with hc hd1 hd2 hab hbe htr
            · simp only [Except.ok.injEq] at h; subst h
              simp [noUnary, opsValid, comparisonOps]
            · simp only [Except.ok.injEq] at h; subst h
              simp [noUnary, opsValid, comparisonOps]
            · simp only [Except.ok.injEq] at h; subst h
              simp [noUnary, opsValid, comparisonOps]
            · simp only [Except.ok.injEq] at h; subst h
              simp [noUnary, opsValid, comparisonOps]
            · simp only [Except.ok.injEq] at h; subst h
              simp [noUnary, opsValid, comparisonOps]
            · cases h6 : op_map_get ((opo.bind fun v =>
                  match v with
                  | JValue.null => none
                  | v => some v).getD JValue.null) with
              | error err => simp [h6] at h
              | ok o =>
                simp only [h6, Except.ok.injEq] at h
                subst h
                exact ⟨rfl, by simpa [opsValid] using op_map_get_mem h6⟩
            · simp only [Except.ok.injEq] at h; subst h
              simp [noUnary, opsValid, comparisonOps]

end QSDL

namespace QSDL

theorem transform_wf (symbol : JValue) : ∀ fuel : Nat,
    (∀ v e, transform_condition symbol fuel v = .ok e →
      noUnary e = true ∧ opsValid e = true)
    ∧ (∀ v e, transform_trigger_conditions symbol fuel v = .ok e →
      noUnary e = true ∧ opsValid e = true) := by
  intro fuel
  induction fuel with
  | zero =>
    constructor <;>
      (intro v e h;
       simp [transform_condition, transform_trigger_conditions] at h)
  | succ fuel ih =>
    obtain ⟨ihc, iht⟩ := ih
    have listlem : ∀ items es,
        transform_condition_list (transform_condition symbol fuel) items = .ok es →
        noUnaryList es = true ∧ opsValidList es = true := by
      intro items
      induction items with
      | nil =>
        intro es h
        simp only [transform_condition_list, Except.ok.injEq] at h
        subst h
        exact ⟨rfl, rfl⟩
      | cons c rest ihl =>
        intro es h
        simp only [transform_condition_list, Bind.bind, Except.bind] at h
        cases h1 : transform_condition symbol fuel c with
        | error err => simp [h1] at h
        | ok e1 =>
          rw [h1] at h
          cases h2 : transform_condition_list (transform_condition symbol fuel) rest with
          | error err => simp [h2] at h
          | ok es2 =>
            rw [h2] at h
            simp only [pure, Except.pure, Except.ok.injEq] at h
            subst h
            obtain ⟨hn1, ho1⟩ := ihc c e1 h1
            obtain ⟨hn2, ho2⟩ := ihl es2 h2
            simp [noUnaryList, opsValidList, hn1, ho1, hn2, ho2]
    have branch : ∀ (items : List JValue) (opstr : String) (e : Expr),
        (Except.bind (transform_condition_list (transform_condition symbol fuel) items)
          (fun operands =>
            match operands with
            | [op] => pure op
            | _ => pure (Expr.logical opstr operands))) = .ok e →
        noUnary e = true ∧ opsValid e = true := by
      intro items opstr e h
      cases hl : transform_condition_list (transform_condition symbol fuel) items with
      | error err => simp [hl, Except.bind] at h
      | ok ops =>
        rw [hl] at h
        obtain ⟨hn, ho⟩ := listlem items ops hl
        match ops, hn, ho with
        | [], _, _ =>
          simp only [Except.bind, pure, Except.pure, Except.ok.injEq] at h
          subst h
          simp [noUnary, noUnaryList, opsValid, opsValidList]
        | [op1], hn, ho =>
          simp only [Except.bind, pure, Except.pure, Except.ok.injEq] at h
          subst h
          simp only [noUnaryList, opsValidList, Bool.and_eq_true] at hn ho
          exact ⟨hn.1, ho.1⟩
        | op1 :: op2 :: r2, hn, ho =>
          simp only [Except.bind, pure, Except.pure, Except.ok.injEq] at h
          subst h
          simp [noUnary, opsValid, hn, ho]
    constructor
    · intro v e h
      simp only [transform_condition] at h
      cases hty : pyGetD v "type" (.str "") with
      | error err => simp [hty, Bind.bind, Except.bind] at h
      | ok ct =>
        cases hps : pyGetD v "params" (.obj []) with
        | error err => simp [hty, hps, Bind.bind, Except.bind] at h
        | ok ps =>
          simp only [hty, hps, Bind.bind, Except.bind] at h
          split_ifs at h with t1 t2 t3 t4
          · exact transform_price_condition_wf h
          · exact transform_indicator_comparison_wf h
          · exact transform_indicator_event_wf h
          · exact transform_price_comparison_wf h
          · cases hka : keyIn v "and" with
            | error err => simp [hka] at h
            | ok b1 =>
              rw [hka] at h
              cases b1 with
              | true =>
                simp only [if_true, Except.bind] at h
                exact iht v e h
              | false =>
                simp only [if_false, Bool.false_eq_true, Except.bind] at h
                cases hko : keyIn v "or" with
                | error err => simp [hko] at h
                | ok b2 =>
                  rw [hko] at h
                  cases b2 with
                  | true =>
                    simp only [if_true, Except.bind] at h
                    exact iht v e h
                  | false =>
                    simp only [if_false, Bool.false_eq_true, Except.bind, pure,
                      Except.pure, Except.ok.injEq] at h
                    subst h
                    exact sentinel_wf
    · intro v e h
      simp only [transform_trigger_conditions] at h
      cases hka : keyIn v "and" with
      | error err => simp [hka, Bind.bind, Except.bind] at h
      | ok b1 =>
        rw [hka] at h
        cases b1 with
        | true =>
          simp only [Bind.bind, if_true, Except.bind] at h
          cases hg : getItem v "and" with
          | error err => simp [hg] at h
          | ok xs =>
            simp only [hg] at h
            cases hi : pyIterate xs with
            | error err => simp [hi] at h
            | ok items =>
              simp only [hi] at h
              exact branch items "AND" e h
        | false =>
          simp only [Bind.bind, if_false, Bool.false_eq_true, Except.bind] at h
          cases hko : keyIn v "or" with
          | error err => simp [hko] at h
          | ok b2 =>
            rw [hko] at h
            cases b2 with
            | true =>
              simp only [if_true, Except.bind] at h
              cases hg : getItem v "or" with
              | error err => simp [hg] at h
              | ok xs =>
                simp only [hg] at h
                cases hi : pyIterate xs with
                | error err => simp [hi] at h
                | ok items =>
                  simp only [hi] at h
                  exact branch items "OR" e h
            | false =>
              simp only [if_false, Bool.false_eq_true, Except.bind] at h
              cases hit : pyIterate v with
              | error err => simp [hit] at h
              | ok keys =>
                simp only [hit] at h
                by_cases hany : (keys.any (fun k =>
                    !(k = .str "actions" ∨ k = .str "id" ∨ k = .str "name" : Bool))) = true
                · rw [if_pos hany] at h
                  exact ihc v e h
                · rw [if_neg hany] at h
                  simp only [pure, Except.pure, Except.ok.injEq] at h
                  subst h
                  exact sentinel_wf

end QSDL

namespace QSDL

theorem rulesForTrigger_condition {symbol : JValue} {amap : List (JValue × JValue)}
    {i : Nat} {cond : Expr} :
    ∀ {ids rules}, rulesForTrigger symbol amap i cond ids = .ok rules →
    ∀ r ∈ rules, r.condition = cond := by
  intro ids
  induction ids with
  | nil =>
    intro rules h r hr
    simp only [rulesForTrigger, Except.ok.injEq] at h
    subst h
    simp at hr
  | cons aid rest ih =>
    intro rules h r hr
    simp only [rulesForTrigger] at h
    split_ifs at h with hh
    · cases hm : mapGet amap aid with
      | none =>
        simp only [hm] at h
        exact ih h r hr
      | some action =>
        simp only [hm] at h
        split_ifs at h with ht
        · cases ha : transform_action symbol action with
          | error err => simp [ha, Bind.bind, Except.bind] at h
          | ok oa =>
            simp only [ha, Bind.bind, Except.bind] at h
            cases hrs : rulesForTrigger symbol amap i cond rest with
            | error err => simp [hrs] at h
            | ok rs =>
              simp only [hrs, pure, Except.pure, Except.ok.injEq] at h
              subst h
              rcases List.mem_cons.mp hr with rfl | hr2
              · rfl
              · exact ih hrs r hr2
        · exact ih h r hr

theorem transform_triggers_loop_wf {symbol : JValue} {amap : List (JValue × JValue)}
    {fuel : Nat} :
    ∀ {i ts rules}, transform_triggers_loop symbol amap fuel i ts = .ok rules →
    ∀ r ∈ rules, noUnary r.condition = true ∧ opsValid r.condition = true := by
  intro i ts
  induction ts generalizing i with
  | nil =>
    intro rules h r hr
    simp only [transform_triggers_loop, Except.ok.injEq] at h
    subst h
    simp at hr
  | cons t rest ih =>
    intro rules h r hr
    simp only [transform_triggers_loop, Bind.bind, Except.bind] at h
    cases hc : transform_trigger_conditions symbol fuel t with
    | error err => simp [hc] at h
    | ok cond =>
      simp only [hc] at h
      cases hga : pyGetD t "actions" (.arr []) with
      | error err => simp [hga] at h
      | ok av =>
        simp only [hga] at h
        cases hi : pyIterate av with
        | error err => simp [hi] at h
        | ok ids =>
          simp only [hi] at h
          cases hrt : rulesForTrigger symbol amap i cond ids with
          | error err => simp [hrt] at h
          | ok here =>
            simp only [hrt] at h
            cases hrest : transform_triggers_loop symbol amap fuel (i+1) rest with
            | error err => simp [hrest] at h
            | ok rs =>
              simp only [hrest, pure, Except.pure, Except.ok.injEq] at h
              subst h
              rcases List.mem_append.mp hr with h1 | h2
              · have hcnd := rulesForTrigger_condition hrt r h1
                rw [hcnd]
                exact ((transform_wf symbol fuel).2 t cond hc)
              · exact ih hrest r h2

theorem transform_strategy_rules_wf {strategy : List (String × JValue)}
    {ast : StrategyAST} (h : transform_strategy strategy = .ok ast) :
    ∀ r ∈ ast.rules, noUnary r.condition = true ∧ opsValid r.condition = true := by
  unfold transform_strategy at h
  cases h1 : resolveSymbol strategy with
  | error err => simp [h1, Bind.bind, Except.bind] at h
  | ok symbol =>
    simp only [h1, Bind.bind, Except.bind] at h
    cases h2 : buildMap ((lookupField strategy "indicators").getD (.arr [])) with
    | error err => simp [h2] at h
    | ok imap =>
      simp only [h2] at h
      cases h3 : buildMap ((lookupField strategy "actions").getD (.arr [])) with
      | error err => simp [h3] at h
      | ok amap =>
        simp only [h3] at h
        cases h4 : transform_indicators strategy with
        | error err => simp [h4] at h
        | ok inds =>
          simp only [h4] at h
          cases h5 : pyIterate ((lookupField strategy "triggers").getD (.arr [])) with
          | error err => simp [h5] at h
          | ok triggers =>
            simp only [h5] at h
            cases h6 : transform_triggers_loop symbol amap (strategyFuel strategy) 0 triggers with
            | error err => simp [h6] at h
            | ok rules =>
              simp only [h6, pure, Except.pure, Except.ok.injEq] at h
              subst h
              intro r hr
              exact transform_triggers_loop_wf h6 r hr

/-! ## LogicalExpression operand counts (C5) -/

/-- The configuration exhibiting the C5 violation: one trigger with an empty
`and` list and one resolvable action. -/
def c5Config : List (String × JValue) :=
  [("triggers", .arr [.obj [("and", .arr []), ("actions", .arr [.str "a"])]]),
   ("actions", .arr [.obj [("id", .str "a")]])]

/-- **C5 counterexample**. The claim as stated is false: lowering a trigger
whose `and` list is empty produces a Rule whose condition is a
LogicalExpression with an *empty* operand sequence (length 0, not ≥ 1). -/
theorem c5_counterexample :
    (transform_strategy c5Config).map (fun a => a.rules.map (fun r => r.condition))
      = .ok [.logical "AND" []] := rfl

/-- **C5** (corrected). The invariant that actually holds: every
LogicalExpression node anywhere in a condition produced by `normalize` has an
operand sequence whose length is *never exactly one* (a singleton group
collapses to its member); an empty `and`/`or` list yields a zero-operand
LogicalExpression, so length ≥ 1 fails exactly there. -/
theorem c5_no_unary (strategy : List (String × JValue)) (ast : StrategyAST)
    (h : transform_strategy strategy = .ok ast) :
    ∀ r ∈ ast.rules, noUnary r.condition = true :=
  fun r hr => (transform_strategy_rules_wf h r hr).1

theorem c5_no_unary_witness :
    ∃ ast, transform_strategy sampleConfig = .ok ast
      ∧ ∀ r ∈ ast.rules, noUnary r.condition = true := by
  refine ⟨_, rfl, c5_no_unary sampleConfig _ rfl⟩

end QSDL

namespace QSDL

/-! ## Position fields (C6) -/

theorem pyGetD_obj {fs : List (String × JValue)} {k : String} {d : JValue} :
    pyGetD (.obj fs) k d = .ok ((lookupField fs k).getD d) := rfl

/-- The configuration exhibiting the C6 violation: a trigger referencing an
action whose type is neither `entry` nor `exit`. -/
def c6Config : List (String × JValue) :=
  [("triggers", .arr [.obj [("actions", .arr [.str "x"])]]),
   ("actions", .arr [.obj [("id", .str "x"), ("type", .str "hold")]])]

/-- **C6 counterexample**. The claim as stated is false: an action of type
`hold` (neither entry nor exit) lowers to a Position carrying *neither*
`max_size` nor `percent` — not exactly one of the two. -/
theorem c6_counterexample :
    (transform_strategy c6Config).map
        (fun a => a.rules.map (fun r =>
          (r.action.action_type, r.action.position.max_size, r.action.position.percent)))
      = .ok [("HOLD", none, none)] := rfl

/-- **C6** (corrected). For every action dict successfully lowered by
`_transform_action`: `max_size` is present exactly when the configured type is
`entry` (value from `max_position_size`, default 1 when absent), and `percent`
is present exactly when the type is `exit` (value from `percent_of_position`,
default 100 when absent); an action of any other type carries neither field. -/
theorem c6_position_fields (symbol : JValue) (fs : List (String × JValue))
    (oa : OrderAction) (h : transform_action symbol (.obj fs) = .ok oa) :
    (oa.position.max_size.isSome = true
        ↔ (lookupField fs "type").getD (.str "") = .str "entry")
    ∧ (oa.position.percent.isSome = true
        ↔ (lookupField fs "type").getD (.str "") = .str "exit")
    ∧ ((lookupField fs "type").getD (.str "") = .str "entry" →
        lookupField fs "max_position_size" = none →
        oa.position.max_size = some (.num 1))
    ∧ ((lookupField fs "type").getD (.str "") = .str "exit" →
        lookupField fs "percent_of_position" = none →
        oa.position.percent = some (.num 100)) := by
  unfold transform_action at h
  simp only [pyGetD_obj, Bind.bind, Except.bind, pure, Except.pure] at h
  by_cases he : (lookupField fs "type").getD (.str "") = .str "entry"
  · simp only [if_pos he] at h
    repeat' split at h
    all_goals cases h
    all_goals
      exact ⟨by simp [he],
        by rw [he]; exact ⟨fun hh => by simp at hh, fun hh => absurd hh (by decide)⟩,
        fun _ h2 => by simp [h2],
        fun hx2 _ => by rw [he] at hx2; exact absurd hx2 (by decide)⟩
  · by_cases hx : (lookupField fs "type").getD (.str "") = .str "exit"
    · simp only [if_neg he, if_pos hx] at h
      repeat' split at h
      all_goals cases h
      all_goals
        exact ⟨by rw [hx]; exact ⟨fun hh => by simp at hh, fun hh => absurd hh (by decide)⟩,
          by simp [hx],
          fun he2 _ => absurd he2 he,
          fun _ h2 => by simp [h2]⟩
    · simp only [if_neg he, if_neg hx] at h
      repeat' split at h
      all_goals cases h
      all_goals
        exact ⟨by simp [he], by simp [hx],
          fun he2 _ => absurd he2 he,
          fun hx2 _ => absurd hx2 hx⟩

theorem c6_position_fields_witness :
    ∃ oa, transform_action (.str "TSLA")
        (.obj [("id", .str "entry_long"), ("type", .str "entry")]) = .ok oa
      ∧ ((oa.position.max_size.isSome = true
            ↔ (lookupField [("id", JValue.str "entry_long"), ("type", JValue.str "entry")]
                "type").getD (.str "") = .str "entry")
         ∧ (oa.position.percent.isSome = true
            ↔ (lookupField [("id", JValue.str "entry_long"), ("type", JValue.str "entry")]
                "type").getD (.str "") = .str "exit")
         ∧ ((lookupField [("id", JValue.str "entry_long"), ("type", JValue.str "entry")]
                "type").getD (.str "") = .str "entry" →
            lookupField [("id", JValue.str "entry_long"), ("type", JValue.str "entry")]
                "max_position_size" = none →
            oa.position.max_size = some (.num 1))
         ∧ ((lookupField [("id", JValue.str "entry_long"), ("type", JValue.str "entry")]
                "type").getD (.str "") = .str "exit" →
            lookupField [("id", JValue.str "entry_long"), ("type", JValue.str "entry")]
                "percent_of_position" = none →
            oa.position.percent = some (.num 100))) :=
  ⟨_, rfl, c6_position_fields (.str "TSLA") _ _ rfl⟩

end QSDL

namespace QSDL

/-! ## Emitter determinism and indentation restoration (C8) -/

theorem generate_rules_loop_level : ∀ (rules : List Rule) (lvl : Nat)
    (out : List String × Nat), generate_rules_loop lvl rules = .ok out → out.2 = lvl := by
  intro rules
  induction rules with
  | nil =>
    intro lvl out h
    simp only [generate_rules_loop, Except.ok.injEq] at h
    subst h
    rfl
  | cons rule rest ih =>
    intro lvl out h
    simp only [generate_rules_loop] at h
    split_ifs at h with h1 h2
    · cases hc : generate_condition_js rule.condition with
      | error err => simp [hc, Bind.bind, Except.bind] at h
      | ok conds =>
        simp only [hc, Bind.bind, Except.bind, Nat.add_sub_cancel] at h
        cases hr : generate_rules_loop lvl rest with
        | error err => simp [hr] at h
        | ok out2 =>
          simp only [hr, pure, Except.pure, Except.ok.injEq] at h
          subst h
          simpa using ih lvl out2 hr
    · cases hc : generate_condition_js rule.condition with
      | error err => simp [hc, Bind.bind, Except.bind] at h
      | ok conds =>
        simp only [hc, Bind.bind, Except.bind, Nat.add_sub_cancel] at h
        cases hr : generate_rules_loop lvl rest with
        | error err => simp [hr] at h
        | ok out2 =>
          simp only [hr, pure, Except.pure, Except.ok.injEq] at h
          subst h
          simpa using ih lvl out2 hr
    · exact ih lvl out h

/-- **C8** (confirmed). `generate` is a pure function of the AST and the
indentation counter it starts from, and it restores the counter: a successful
call started at level `lvl` ends back at `lvl`, so a second call on the same
generator object (which starts at the level the first call left behind)
returns byte-identical output. Immutability of the AST argument holds by
construction in this embedding (the Python code never writes to `self.ast`). -/
theorem c8_emit_pure (ast : StrategyAST) (lvl : Nat) (s : String) (l2 : Nat)
    (h : generate ast lvl = .ok (s, l2)) :
    l2 = lvl ∧ generate ast l2 = .ok (s, lvl) := by
  have hl : l2 = lvl := by
    unfold generate at h
    cases hr : generate_rules_loop (lvl + 1) ast.rules with
    | error err => simp [hr, Bind.bind, Except.bind] at h
    | ok out2 =>
      simp only [hr, Bind.bind, Except.bind, pure, Except.pure, Except.ok.injEq,
        Prod.mk.injEq] at h
      have := generate_rules_loop_level ast.rules (lvl + 1) out2 hr
      omega
  subst hl
  exact ⟨rfl, h⟩

/-- A small AST exercising the entry-rule branch of the emitter. -/
def c8SampleRule : Rule where
  name := "entry_long_rule"
  condition := sentinel
  action :=
    { action_type := "OPEN_POSITION"
      position :=
        { direction := "LONG"
          symbol := .str "S"
          order_type := "MARKET"
          max_size := some (.num 1) } }

def c8SampleAST : StrategyAST where
  symbol := .str "S"
  indicators := []
  rules := [c8SampleRule]

theorem c8_emit_pure_witness :
    (0 : Nat) = 0 ∧ generate c8SampleAST 0
      = .ok ("// Generated JavaScript Trading Strategy\nclass SStrategy \x7b\n  checkEntry(price, rsi14, ema50, ema200) \x7b\n    return 1 === 1;\n  \x7d\n\n\x7d", 0) :=
  c8_emit_pure c8SampleAST 0 _ 0 rfl

end QSDL

namespace QSDL

/-! ## Rule fan-out, ordering and silent omission (C7) -/

def resToOption : Res α → Option α
  | .ok a => some a
  | .error _ => none

/-- Specification-shaped per-trigger rule expansion (spec §3/§4.1): for the
`i`-th trigger, one Rule per referenced action id that resolves in the actions
map, in the order the ids are referenced, all sharing the one condition
lowered for that trigger; unresolved ids contribute nothing. -/
def specRulesOfTrigger (symbol : JValue) (amap : List (JValue × JValue)) (fuel : Nat)
    (p : Nat × JValue) : List Rule :=
  match transform_trigger_conditions symbol fuel p.2 with
  | .error _ => []
  | .ok cond =>
    match (pyGetD p.2 "actions" (.arr [])).bind pyIterate with
    | .error _ => []
    | .ok ids =>
      ids.filterMap (fun aid =>
        (mapGet amap aid).bind (fun act =>
          if truthy act then
            (resToOption (transform_action symbol act)).map (fun oa =>
              { name := ruleName aid p.1, condition := cond, action := oa })
          else none))

theorem rulesForTrigger_spec {symbol : JValue} {amap : List (JValue × JValue)}
    {i : Nat} {cond : Expr} : ∀ {ids rules},
    rulesForTrigger symbol amap i cond ids = .ok rules →
    rules = ids.filterMap (fun aid =>
      (mapGet amap aid).bind (fun act =>
        if truthy act then
          (resToOption (transform_action symbol act)).map (fun oa =>
            { name := ruleName aid i, condition := cond, action := oa })
        else none)) := by
  intro ids
  induction ids with
  | nil =>
    intro rules h
    simp only [rulesForTrigger, Except.ok.injEq] at h
    subst h
    rfl
  | cons aid rest ih =>
    intro rules h
    simp only [rulesForTrigger] at h
    split_ifs at h with hh
    · cases hm : mapGet amap aid with
      | none =>
        simp only [hm] at h
        rw [ih h]
        simp [List.filterMap_cons, hm]
      | some action =>
        simp only [hm] at h
        split_ifs at h with ht
        · cases ha : transform_action symbol action with
          | error err => simp [ha, Bind.bind, Except.bind] at h
          | ok oa =>
            simp only [ha, Bind.bind, Except.bind] at h
            cases hrs : rulesForTrigger symbol amap i cond rest with
            | error err => simp [hrs] at h
            | ok rs =>
              simp only [hrs, pure, Except.pure, Except.ok.injEq] at h
              subst h
              rw [ih hrs]
              simp [hm, ht, ha, resToOption]
        · rw [ih h]
          simp [hm, ht]

/-- **C7** (confirmed). The rules list is exactly the concatenation, over the
triggers in order (enumerated from the starting index), of the per-trigger
spec-shaped expansion: one Rule per referenced action id resolvable in the
actions set, in reference order, all Rules of one trigger sharing that
trigger's single lowered condition tree. Moreover a referenced id that is
absent from the actions set (second conjunct) contributes no Rule and causes
no error: the loop result is unchanged by dropping it. -/
theorem c7_rules_shape (symbol : JValue) (amap : List (JValue × JValue)) (fuel : Nat) :
    (∀ (i : Nat) (ts : List JValue) (rules : List Rule),
      transform_triggers_loop symbol amap fuel i ts = .ok rules →
      rules = ((ts.enumFrom i).map (specRulesOfTrigger symbol amap fuel)).flatten)
    ∧ (∀ (i : Nat) (cond : Expr) (aid : JValue) (ids : List JValue),
      hashable aid = true → mapGet amap aid = none →
      rulesForTrigger symbol amap i cond (aid :: ids)
        = rulesForTrigger symbol amap i cond ids) := by
  constructor
  · intro i ts
    induction ts generalizing i with
    | nil =>
      intro rules h
      simp only [transform_triggers_loop, Except.ok.injEq] at h
      subst h
      rfl
    | cons t rest ih =>
      intro rules h
      simp only [transform_triggers_loop, Bind.bind, Except.bind] at h
      cases hc : transform_trigger_conditions symbol fuel t with
      | error err => simp [hc] at h
      | ok cond =>
        simp only [hc] at h
        cases hga : pyGetD t "actions" (.arr []) with
        | error err => simp [hga] at h
        | ok av =>
          simp only [hga] at h
          cases hi : pyIterate av with
          | error err => simp [hi] at h
          | ok ids =>
            simp only [hi] at h
            cases hrt : rulesForTrigger symbol amap i cond ids with
            | error err => simp [hrt] at h
            | ok here =>
              simp only [hrt] at h
              cases hrest : transform_triggers_loop symbol amap fuel (i+1) rest with
              | error err => simp [hrest] at h
              | ok rs =>
                simp only [hrest, pure, Except.pure, Except.ok.injEq] at h
                subst h
                rw [rulesForTrigger_spec hrt, ih (i+1) rs hrest]
                simp only [List.enumFrom_cons, List.map_cons, List.flatten_cons]
                congr 1
                unfold specRulesOfTrigger
                simp [hc, hga, hi, Bind.bind, Except.bind]
  · intro i cond aid ids hh hm
    simp only [rulesForTrigger, hh, if_true, hm]

/-- Concrete actions map and trigger list for the C7 witness. -/
def c7amap : List (JValue × JValue) :=
  [((.str "a"), (.obj [("id", .str "a"), ("type", .str "entry")]))]

def c7ts : List JValue := [.obj [("actions", .arr [.str "a", .str "missing"])]]

def c7WitnessAction : OrderAction where
  action_type := "OPEN_POSITION"
  position :=
    { direction := "LONG"
      symbol := .str "TSLA"
      order_type := "MARKET"
      max_size := some (.num 1) }

theorem c7_rules_shape_witness :
    (transform_triggers_loop (.str "TSLA") c7amap 4 0 c7ts
      = .ok (((c7ts.enumFrom 0).map (specRulesOfTrigger (.str "TSLA") c7amap 4)).flatten))
    ∧ rulesForTrigger (.str "TSLA") [] 0 sentinel [.str "zzz"]
      = rulesForTrigger (.str "TSLA") [] 0 sentinel [] := by
  constructor
  · have h : transform_triggers_loop (.str "TSLA") c7amap 4 0 c7ts
        = .ok [{ name := "a_rule", condition := sentinel, action := c7WitnessAction }] := rfl
    have h2 := (c7_rules_shape (.str "TSLA") c7amap 4).1 0 c7ts _ h
    rw [← h2]
    exact h
  · exact (c7_rules_shape (.str "TSLA") [] 4).2 0 sentinel (.str "zzz") [] rfl rfl

end QSDL

namespace QSDL

/-! ## Totality of `normalize` on well-formed configurations (C2) -/

theorem jsize_mem_arr {x : JValue} {xs : List JValue} (h : x ∈ xs) :
    jsize x < jsize (.arr xs) := by
  have : jsize x < 1 + jsizeList xs := by
    induction xs with
    | nil => simp at h
    | cons y rest ih =>
      rcases List.mem_cons.mp h with rfl | h2
      · simp [jsizeList]
        omega
      · have := ih h2
        simp [jsizeList] at this ⊢
        omega
  simpa [jsize] using this

theorem jsizeFields_mem {k : String} {v : JValue} {fs : List (String × JValue)}
    (h : (k, v) ∈ fs) : jsize v < 1 + jsizeFields fs := by
  induction fs with
  | nil => simp at h
  | cons p rest ih =>
    obtain ⟨k2, v2⟩ := p
    rcases List.mem_cons.mp h with heq | h2
    · cases heq
      simp [jsizeFields]
      omega
    · have := ih h2
      simp [jsizeFields] at this ⊢
      omega

theorem lookupField_mem {fs : List (String × JValue)} {k : String} {v : JValue}
    (h : lookupField fs k = some v) : (k, v) ∈ fs := by
  induction fs with
  | nil => simp [lookupField] at h
  | cons p rest ih =>
    obtain ⟨k2, v2⟩ := p
    by_cases he : k2 = k
    · subst he
      simp [lookupField] at h
      subst h
      simp
    · simp [lookupField, he] at h
      exact List.mem_cons_of_mem _ (ih h)

theorem jsize_lookup {fs : List (String × JValue)} {k : String} {v : JValue}
    (h : lookupField fs k = some v) : jsize v < jsize (.obj fs) := by
  have := jsizeFields_mem (lookupField_mem h)
  simpa [jsize] using this

/-- Well-formedness of the `params` of a condition: absent, or a dict whose
`operator` value (when present) is hashable. -/
def condParamsOk (fs : List (String × JValue)) : Bool :=
  match lookupField fs "params" with
  | none => true
  | some (.obj ps) =>
    (match lookupField ps "operator" with
     | some op => hashable op
     | none => true)
  | some _ => false

/-- Well-formed conditions: dicts whose params are usable and whose nested
`and`/`or` groups (when present) are lists of well-formed conditions. -/
inductive WCond : JValue → Prop where
  | flat : ∀ fs, condParamsOk fs = true →
      lookupField fs "and" = none → lookupField fs "or" = none → WCond (.obj fs)
  | nested_and : ∀ fs items, condParamsOk fs = true →
      lookupField fs "and" = some (.arr items) →
      (∀ c ∈ items, WCond c) → WCond (.obj fs)
  | nested_or : ∀ fs items, condParamsOk fs = true →
      lookupField fs "and" = none →
      lookupField fs "or" = some (.arr items) →
      (∀ c ∈ items, WCond c) → WCond (.obj fs)

/-- Well-formed triggers: a dict with an `and`/`or` list of well-formed
conditions, or a dict with neither key whose own params are usable. -/
inductive WTrig : JValue → Prop where
  | wand : ∀ fs items, lookupField fs "and" = some (.arr items) →
      (∀ c ∈ items, WCond c) → WTrig (.obj fs)
  | wor : ∀ fs items, lookupField fs "and" = none →
      lookupField fs "or" = some (.arr items) →
      (∀ c ∈ items, WCond c) → WTrig (.obj fs)
  | wflat : ∀ fs, lookupField fs "and" = none → lookupField fs "or" = none →
      condParamsOk fs = true → WTrig (.obj fs)

theorem op_map_get_total {v : JValue} (h : hashable v = true) :
    ∃ o, op_map_get v = .ok o := by
  unfold op_map_get
  rw [if_pos h]
  exact ⟨_, rfl⟩

/-- The `operator` value consulted by `price_comparison`/`indicator_comparison`
is hashable for usable params. -/
def opHash (ps : List (String × JValue)) : Bool :=
  match lookupField ps "operator" with
  | some op => hashable op
  | none => true

theorem opHash_getD {ps : List (String × JValue)} (h : opHash ps = true) :
    hashable ((lookupField ps "operator").getD (.str ">")) = true := by
  unfold opHash at h
  cases ho : lookupField ps "operator" with
  | none => rfl
  | some op => rw [ho] at h; simpa using h

theorem opHash_event {ps : List (String × JValue)} (h : opHash ps = true) :
    hashable (((lookupField ps "operator").bind (fun v =>
      match v with | .null => none | v => some v)).getD .null) = true := by
  unfold opHash at h
  cases ho : lookupField ps "operator" with
  | none => rfl
  | some op =>
    rw [ho] at h
    cases op <;> simp_all [hashable]

theorem transform_price_condition_total (symbol : JValue) (ps : List (String × JValue)) :
    ∃ e, transform_price_condition symbol (.obj ps) = .ok e := by
  unfold transform_price_condition
  simp only [pyGetD_obj, Bind.bind, Except.bind, pure, Except.pure]
  split_ifs <;> exact ⟨_, rfl⟩

theorem transform_price_comparison_total (symbol : JValue) (ps : List (String × JValue))
    (h : opHash ps = true) :
    ∃ e, transform_price_comparison symbol (.obj ps) = .ok e := by
  unfold transform_price_comparison
  simp only [pyGetD_obj, Bind.bind, Except.bind, pure, Except.pure]
  obtain ⟨o, ho⟩ := op_map_get_total (opHash_getD h)
  rw [ho]
  exact ⟨_, rfl⟩

theorem transform_indicator_comparison_total (ps : List (String × JValue))
    (h : opHash ps = true) :
    ∃ e, transform_indicator_comparison (.obj ps) = .ok e := by
  unfold transform_indicator_comparison
  simp only [pyGetD_obj, pyGet, Bind.bind, Except.bind, pure, Except.pure]
  obtain ⟨o, ho⟩ := op_map_get_total (opHash_getD h)
  rw [ho]
  exact ⟨_, rfl⟩

theorem transform_indicator_event_total (ps : List (String × JValue))
    (h : opHash ps = true) :
    ∃ e, transform_indicator_event (.obj ps) = .ok e := by
  unfold transform_indicator_event
  simp only [pyGetD_obj, pyGet, Bind.bind, Except.bind, pure, Except.pure]
  split_ifs <;>
    first
      | exact ⟨_, rfl⟩
      | (obtain ⟨o, ho⟩ := op_map_get_total (opHash_event h);
         rw [ho]; exact ⟨_, rfl⟩)

end QSDL

namespace QSDL

def resIsOk : Res α → Bool
  | .ok _ => true
  | .error _ => false

theorem resIsOk_iff {r : Res α} : resIsOk r = true ↔ ∃ a, r = .ok a := by
  cases r <;> simp [resIsOk]

theorem condParamsOk_params {fs : List (String × JValue)} (h : condParamsOk fs = true) :
    ∃ ps, (lookupField fs "params").getD (.obj []) = .obj ps ∧ opHash ps = true := by
  unfold condParamsOk at h
  cases hp : lookupField fs "params" with
  | none => exact ⟨[], rfl, rfl⟩
  | some v =>
    rw [hp] at h
    cases v with
    | obj ps => exact ⟨ps, rfl, h⟩
    | null => simp at h
    | bool b => simp at h
    | num n => simp at h
    | str s => simp at h
    | arr xs => simp at h

theorem WCond_obj {v : JValue} (h : WCond v) :
    ∃ fs, v = .obj fs ∧ condParamsOk fs = true := by
  cases h with
  | flat fs hp _ _ => exact ⟨fs, rfl, hp⟩
  | nested_and fs items hp _ _ => exact ⟨fs, rfl, hp⟩
  | nested_or fs items hp _ _ _ => exact ⟨fs, rfl, hp⟩

theorem tc_flat_total (symbol : JValue) (fuel : Nat) (fs : List (String × JValue))
    (hp : condParamsOk fs = true) (hand : lookupField fs "and" = none)
    (hor : lookupField fs "or" = none) :
    resIsOk (transform_condition symbol (fuel+1) (.obj fs)) = true := by
  obtain ⟨ps, hps, hop⟩ := condParamsOk_params hp
  simp only [transform_condition, pyGetD_obj, hps, Bind.bind, Except.bind, pure, Except.pure]
  by_cases t1 : (lookupField fs "type").getD (.str "") = .str "price_move"
  · rw [if_pos t1]
    obtain ⟨e, he⟩ := transform_price_condition_total symbol ps
    rw [he]
    rfl
  · rw [if_neg t1]
    by_cases t2 : (lookupField fs "type").getD (.str "") = .str "indicator_comparison"
    · rw [if_pos t2]
      obtain ⟨e, he⟩ := transform_indicator_comparison_total ps hop
      rw [he]
      rfl
    · rw [if_neg t2]
      by_cases t3 : (lookupField fs "type").getD (.str "") = .str "indicator_event"
      · rw [if_pos t3]
        obtain ⟨e, he⟩ := transform_indicator_event_total ps hop
        rw [he]
        rfl
      · rw [if_neg t3]
        by_cases t4 : (lookupField fs "type").getD (.str "") = .str "price_comparison"
        · rw [if_pos t4]
          obtain ⟨e, he⟩ := transform_price_comparison_total symbol ps hop
          rw [he]
          rfl
        · rw [if_neg t4]
          rw [keyIn_obj, hand, keyIn_obj, hor]
          rfl

theorem tcl_total {f : JValue → Res Expr} : ∀ (items : List JValue),
    (∀ c ∈ items, resIsOk (f c) = true) →
    ∃ es, transform_condition_list f items = .ok es := by
  intro items
  induction items with
  | nil => intro _; exact ⟨[], rfl⟩
  | cons c rest ih =>
    intro hall
    obtain ⟨e, he⟩ := resIsOk_iff.mp (hall c (by simp))
    obtain ⟨es, hes⟩ := ih (fun z hz => hall z (by simp [hz]))
    refine ⟨e :: es, ?_⟩
    simp [transform_condition_list, he, hes, Bind.bind, Except.bind, pure, Except.pure]

end QSDL

namespace QSDL

theorem jsize_obj_pos (fs : List (String × JValue)) : 1 ≤ jsize (.obj fs) := by
  simp [jsize]

theorem transform_total (symbol : JValue) : ∀ fuel : Nat,
    (∀ v, WCond v → 2 * jsize v + 3 ≤ fuel →
      resIsOk (transform_condition symbol fuel v) = true)
    ∧ (∀ v, WTrig v → 2 * jsize v + 2 ≤ fuel →
      resIsOk (transform_trigger_conditions symbol fuel v) = true) := by
  intro fuel
  induction fuel with
  | zero =>
    constructor
    · intro v _ hb
      omega
    · intro v _ hb
      omega
  | succ fuel ih =>
    obtain ⟨ihc, iht⟩ := ih
    constructor
    · intro v hw hb
      obtain ⟨fs, rfl, hp⟩ := WCond_obj hw
      obtain ⟨ps, hps, hop⟩ := condParamsOk_params hp
      simp only [transform_condition, pyGetD_obj, hps, Bind.bind, Except.bind, pure,
        Except.pure]
      by_cases t1 : (lookupField fs "type").getD (.str "") = .str "price_move"
      · rw [if_pos t1]
        obtain ⟨e, he⟩ := transform_price_condition_total symbol ps
        rw [he]
        rfl
      · rw [if_neg t1]
        by_cases t2 : (lookupField fs "type").getD (.str "") = .str "indicator_comparison"
        · rw [if_pos t2]
          obtain ⟨e, he⟩ := transform_indicator_comparison_total ps hop
          rw [he]
          rfl
        · rw [if_neg t2]
          by_cases t3 : (lookupField fs "type").getD (.str "") = .str "indicator_event"
          · rw [if_pos t3]
            obtain ⟨e, he⟩ := transform_indicator_event_total ps hop
            rw [he]
            rfl
          · rw [if_neg t3]
            by_cases t4 : (lookupField fs "type").getD (.str "") = .str "price_comparison"
            · rw [if_pos t4]
              obtain ⟨e, he⟩ := transform_price_comparison_total symbol ps hop
              rw [he]
              rfl
            · rw [if_neg t4]
              cases hw with
              | flat fs2 hp2 hand hor =>
                rw [keyIn_obj, hand, keyIn_obj, hor]
                rfl
              | nested_and fs2 items hp2 hAnd hItems =>
                rw [keyIn_obj, hAnd]
                simp only [Option.isSome_some, Except.bind, if_true]
                exact iht (.obj fs) (WTrig.wand fs items hAnd hItems) (by omega)
              | nested_or fs2 items hp2 hand hOr hItems =>
                rw [keyIn_obj, hand, keyIn_obj, hOr]
                simp only [Option.isSome_none, Option.isSome_some, Except.bind,
                  Bool.false_eq_true, if_false, if_true]
                exact iht (.obj fs) (WTrig.wor fs items hand hOr hItems) (by omega)
    · intro v hw hb
      cases hw with
      | wand fs items hAnd hItems =>
        have hsz : jsize (.arr items) < jsize (.obj fs) := jsize_lookup hAnd
        have hg : getItem (.obj fs) "and" = .ok (.arr items) := by
          simp [getItem, hAnd]
        simp only [transform_trigger_conditions, Bind.bind, Except.bind, keyIn_obj, hAnd,
          Option.isSome_some, if_true, hg, pyIterate]
        obtain ⟨es, hes⟩ := tcl_total items (fun c hc =>
          ihc c (hItems c hc) (by
            have := jsize_mem_arr hc
            omega))
        rw [hes]
        match es with
        | [] => rfl
        | [e1] => rfl
        | e1 :: e2 :: r2 => rfl
      | wor fs items hand hOr hItems =>
        have hsz : jsize (.arr items) < jsize (.obj fs) := jsize_lookup hOr
        have hg : getItem (.obj fs) "or" = .ok (.arr items) := by
          simp [getItem, hOr]
        simp only [transform_trigger_conditions, Bind.bind, Except.bind, keyIn_obj, hand,
          hOr, Option.isSome_none, Option.isSome_some, Bool.false_eq_true, if_false,
          if_true, hg, pyIterate]
        obtain ⟨es, hes⟩ := tcl_total items (fun c hc =>
          ihc c (hItems c hc) (by
            have := jsize_mem_arr hc
            omega))
        rw [hes]
        match es with
        | [] => rfl
        | [e1] => rfl
        | e1 :: e2 :: r2 => rfl
      | wflat fs hand hor hp =>
        simp only [transform_trigger_conditions, Bind.bind, Except.bind, keyIn_obj, hand,
          hor, Option.isSome_none, Bool.false_eq_true, if_false, pyIterate]
        by_cases hany : (((fs.map (fun p => JValue.str p.1))).any (fun k =>
            !(k = .str "actions" ∨ k = .str "id" ∨ k = .str "name" : Bool))) = true
        · rw [if_pos hany]
          have hfs : 1 ≤ jsize (.obj fs) := jsize_obj_pos fs
          match fuel, hb with
          | g+1, hb => exact tc_flat_total symbol g fs hp hand hor
        · rw [if_neg hany]
          rfl

end QSDL

namespace QSDL

/-! ## Config-level well-formedness and pipeline totality (C2) -/

/-- The item has a hashable `id` (needed by the id-map comprehensions). -/
def idOk (x : JValue) : Bool :=
  match x with
  | .obj fs =>
    (match lookupField fs "id" with
     | some k => hashable k
     | none => false)
  | _ => false

/-- Well-formed indicator entry: dict with hashable `id` and string `type`. -/
def indicatorOkB (x : JValue) : Bool :=
  match x with
  | .obj fs =>
    (match lookupField fs "id" with
     | some k => hashable k
     | none => false)
    && (match lookupField fs "type" with
        | some (.str _) => true
        | _ => false)
  | _ => false

/-- Well-formed action entry: dict with hashable `id`, string-or-absent
`type`, falsy-or-string `direction`, dict-or-absent `order` whose `type` is
string-or-absent. -/
def actionOkB (x : JValue) : Bool :=
  match x with
  | .obj fs =>
    (match lookupField fs "id" with
     | some k => hashable k
     | none => false)
    && (match lookupField fs "type" with
        | none => true
        | some (.str _) => true
        | some _ => false)
    && (match lookupField fs "direction" with
        | none => true
        | some d => !truthy d || (match d with | .str _ => true | _ => false))
    && (match lookupField fs "order" with
        | none => true
        | some (.obj os) =>
          (match lookupField os "type" with
           | none => true
           | some (.str _) => true
           | some _ => false)
        | some _ => false)
  | _ => false

/-- Well-formed `actions` reference list of a trigger: absent or a list of
hashable ids. -/
def trigActionsOkB (t : JValue) : Bool :=
  match t with
  | .obj fs =>
    (match lookupField fs "actions" with
     | none => true
     | some (.arr ids) => ids.all hashable
     | some _ => false)
  | _ => false

def symbolsOkB (strategy : List (String × JValue)) : Bool :=
  match lookupField strategy "symbols" with
  | none => true
  | some (.arr _) => true
  | some (.str _) => true
  | some v => !truthy v

def indicatorsOkB (strategy : List (String × JValue)) : Bool :=
  match lookupField strategy "indicators" with
  | none => true
  | some (.arr inds) => inds.all indicatorOkB
  | some _ => false

def actionsOkB (strategy : List (String × JValue)) : Bool :=
  match lookupField strategy "actions" with
  | none => true
  | some (.arr acts) => acts.all actionOkB
  | some _ => false

/-- Well-formed strategy configuration: the sufficient conditions under which
`normalize` is total (see the C2 correction). -/
def WConfig (strategy : List (String × JValue)) : Prop :=
  symbolsOkB strategy = true
  ∧ indicatorsOkB strategy = true
  ∧ actionsOkB strategy = true
  ∧ (match lookupField strategy "triggers" with
     | none => True
     | some (.arr ts) => ∀ t ∈ ts, WTrig t ∧ trigActionsOkB t = true
     | some _ => False)

theorem resolveSymbol_total {strategy : List (String × JValue)}
    (h : symbolsOkB strategy = true) : resIsOk (resolveSymbol strategy) = true := by
  unfold symbolsOkB at h
  unfold resolveSymbol
  cases hs : lookupField strategy "symbols" with
  | none => rfl
  | some v =>
    rw [hs] at h
    dsimp only
    by_cases ht : truthy v = true
    · rw [if_pos ht]
      cases v with
      | arr xs =>
        cases xs with
        | nil => simp [truthy] at ht
        | cons x rest => rfl
      | str s =>
        cases hd : s.data with
        | nil =>
          exfalso
          have hse : s = "" := by
            cases s
            subst hd
            rfl
          rw [hse] at ht
          simp [truthy] at ht
        | cons c cs => simp [pyIndex0, hd, resIsOk]
      | null => simp [truthy] at ht
      | bool b => simp_all
      | num n => simp_all
      | obj fs => simp_all
    · rw [if_neg ht]
      rfl

theorem mapInsert_mem {m : List (JValue × JValue)} {k v : JValue} {p : JValue × JValue}
    (h : p ∈ mapInsert m k v) : p ∈ m ∨ p.2 = v := by
  unfold mapInsert at h
  split_ifs at h with hc
  · obtain ⟨q, hq, hqe⟩ := List.mem_map.mp h
    by_cases hqk : q.1 = k
    · rw [if_pos hqk] at hqe
      right
      rw [← hqe]
    · rw [if_neg hqk] at hqe
      left
      rw [← hqe]
      exact hq
  · rcases List.mem_append.mp h with h1 | h1
    · exact Or.inl h1
    · right
      simp at h1
      rw [h1]

theorem buildMap_loop_total : ∀ (xs : List JValue) (m0 : List (JValue × JValue)),
    (∀ x ∈ xs, idOk x = true) →
    ∃ m, buildMap_loop m0 xs = .ok m
      ∧ ∀ p ∈ m, p ∈ m0 ∨ (p : JValue × JValue).2 ∈ xs := by
  intro xs
  induction xs with
  | nil => exact fun m0 _ => ⟨m0, rfl, fun p hp => Or.inl hp⟩
  | cons x rest ih =>
    intro m0 hall
    have hx := hall x (by simp)
    unfold idOk at hx
    cases x with
    | obj fs =>
      dsimp only at hx
      cases hid : lookupField fs "id" with
      | none => rw [hid] at hx; simp at hx
      | some k =>
        rw [hid] at hx
        dsimp only at hx
        obtain ⟨m, hm, hmem⟩ := ih (mapInsert m0 k (.obj fs))
          (fun z hz => hall z (by simp [hz]))
        refine ⟨m, ?_, ?_⟩
        · simp [buildMap_loop, getItem, hid, hx, Bind.bind, Except.bind, hm]
        · intro p hp
          rcases hmem p hp with h1 | h1
          · rcases mapInsert_mem h1 with h2 | h2
            · exact Or.inl h2
            · right
              rw [h2]
              simp
          · right
            simp [h1]
    | null => simp at hx
    | bool b => simp at hx
    | num n => simp at hx
    | str s => simp at hx
    | arr ys => simp at hx

theorem transform_indicators_list_total : ∀ (inds : List JValue),
    (∀ x ∈ inds, indicatorOkB x = true) →
    resIsOk (transform_indicators_list inds) = true := by
  intro inds
  induction inds with
  | nil => intro _; rfl
  | cons x rest ih =>
    intro hall
    have hx := hall x (by simp)
    unfold indicatorOkB at hx
    cases x with
    | obj fs =>
      dsimp only at hx
      simp only [Bool.and_eq_true] at hx
      obtain ⟨hid, hty⟩ := hx
      cases hidl : lookupField fs "id" with
      | none => rw [hidl] at hid; simp at hid
      | some k =>
        cases htyl : lookupField fs "type" with
        | none => rw [htyl] at hty; simp at hty
        | some tv =>
          rw [htyl] at hty
          cases tv <;> try simp at hty
          case str s =>
            obtain ⟨rs, hrs⟩ := resIsOk_iff.mp
              (ih (fun z hz => hall z (by simp [hz])))
            simp [transform_indicators_list, getItem, hidl, htyl, pyUpper, pyGetD_obj,
              Bind.bind, Except.bind, hrs, pure, Except.pure, resIsOk]
    | null => simp at hx
    | bool b => simp at hx
    | num n => simp at hx
    | str s => simp at hx
    | arr ys => simp at hx

end QSDL

namespace QSDL

theorem pyUpper_getD_total {o : Option JValue} {d : String}
    (h : (match o with
          | none => true
          | some (.str _) => true
          | some _ => false) = true) :
    ∃ s2, pyUpper (o.getD (.str d)) = .ok s2 := by
  cases o with
  | none => exact ⟨_, rfl⟩
  | some v =>
    cases v with
    | str s => exact ⟨_, rfl⟩
    | null => simp at h
    | bool b => simp at h
    | num n => simp at h
    | arr a2 => simp at h
    | obj o2 => simp at h

theorem transform_action_total (symbol : JValue) {x : JValue}
    (h : actionOkB x = true) : resIsOk (transform_action symbol x) = true := by
  unfold actionOkB at h
  cases x with
  | null => simp at h
  | bool b => simp at h
  | num n => simp at h
  | str s => simp at h
  | arr ys => simp at h
  | obj fs =>
    dsimp only at h
    simp only [Bool.and_eq_true] at h
    obtain ⟨⟨⟨hid, hty⟩, hdir⟩, hord⟩ := h
    have hOrderObj : ∃ os, (lookupField fs "order").getD (.obj []) = .obj os
        ∧ (match lookupField os "type" with
           | none => true
           | some (.str _) => true
           | some _ => false) = true := by
      cases ho : lookupField fs "order" with
      | none => exact ⟨[], rfl, rfl⟩
      | some ov =>
        rw [ho] at hord
        cases ov with
        | obj os => exact ⟨os, rfl, hord⟩
        | null => simp at hord
        | bool b => simp at hord
        | num n => simp at hord
        | str s => simp at hord
        | arr a2 => simp at hord
    obtain ⟨os, hos, hosty⟩ := hOrderObj
    obtain ⟨us, hus⟩ := pyUpper_getD_total (d := "market") hosty
    have hDir : ∀ {K : String → Res OrderAction},
        (∀ ds, resIsOk (K ds) = true) →
        resIsOk ((if truthy ((lookupField fs "direction").getD (.str "")) = true
          then Except.bind (pyUpper ((lookupField fs "direction").getD (.str "")))
            (fun ds => K ds)
          else K "LONG") : Res OrderAction) = true := by
      intro K hK
      by_cases htd : truthy ((lookupField fs "direction").getD (.str "")) = true
      · rw [if_pos htd]
        cases hld : lookupField fs "direction" with
        | none =>
          rw [hld] at htd
          simp [truthy] at htd
        | some d =>
          rw [hld] at hdir htd
          simp only [Option.getD_some] at htd
          cases d with
          | str s2 =>
            simpa [pyUpper, Except.bind] using hK (String.mk (s2.data.map Char.toUpper))
          | null => simp [truthy] at htd
          | bool b => simp [htd] at hdir
          | num n => simp [htd] at hdir
          | arr a2 => simp [htd] at hdir
          | obj o2 => simp [htd] at hdir
      · rw [if_neg htd]
        exact hK "LONG"
    simp only [transform_action, pyGetD_obj, Bind.bind, Except.bind, pure, Except.pure]
    by_cases he : (lookupField fs "type").getD (.str "") = .str "entry"
    · simp only [if_pos he]
      refine hDir (fun ds => ?_)
      simp only [hos, pyGetD_obj, hus]
      rfl
    · by_cases hx : (lookupField fs "type").getD (.str "") = .str "exit"
      · simp only [if_neg he, if_pos hx]
        refine hDir (fun ds => ?_)
        simp only [hos, pyGetD_obj, hus]
        rfl
      · simp only [if_neg he, if_neg hx]
        have hup : ∃ a, pyUpper ((lookupField fs "type").getD (.str "")) = .ok a := by
          cases hl : lookupField fs "type" with
          | none => exact ⟨_, rfl⟩
          | some tv =>
            rw [hl] at hty
            cases tv with
            | str s2 => exact ⟨_, rfl⟩
            | null => simp at hty
            | bool b => simp at hty
            | num n => simp at hty
            | arr a2 => simp at hty
            | obj o2 => simp at hty
        obtain ⟨a, ha⟩ := hup
        simp only [ha, Except.bind]
        refine hDir (fun ds => ?_)
        simp only [hos, pyGetD_obj, hus]
        rfl

end QSDL

namespace QSDL

theorem mapGet_mem {m : List (JValue × JValue)} {k a : JValue}
    (h : mapGet m k = some a) : ∃ k2, (k2, a) ∈ m := by
  unfold mapGet at h
  cases hf : m.find? (fun p => p.1 = k) with
  | none => rw [hf] at h; simp at h
  | some p =>
    obtain ⟨k2, v2⟩ := p
    rw [hf] at h
    have hmem := List.mem_of_find?_eq_some hf
    have hva : v2 = a := by simpa using h
    subst hva
    exact ⟨k2, hmem⟩

theorem rulesForTrigger_total {symbol : JValue} {amap : List (JValue × JValue)}
    {i : Nat} {cond : Expr} (hmap : ∀ p ∈ amap, actionOkB (p : JValue × JValue).2 = true) :
    ∀ ids, (∀ a ∈ ids, hashable a = true) →
    resIsOk (rulesForTrigger symbol amap i cond ids) = true := by
  intro ids
  induction ids with
  | nil => intro _; rfl
  | cons aid rest ih =>
    intro hall
    simp only [rulesForTrigger, hall aid (by simp), if_true]
    cases hm : mapGet amap aid with
    | none => exact ih (fun z hz => hall z (by simp [hz]))
    | some action =>
      dsimp only
      by_cases ht : truthy action = true
      · rw [if_pos ht]
        obtain ⟨k2, hk2⟩ := mapGet_mem hm
        obtain ⟨oa, hoa⟩ := resIsOk_iff.mp
          (transform_action_total symbol (hmap (k2, action) hk2))
        obtain ⟨rs, hrs⟩ := resIsOk_iff.mp (ih (fun z hz => hall z (by simp [hz])))
        simp [hoa, hrs, Bind.bind, Except.bind, pure, Except.pure, resIsOk]
      · rw [if_neg ht]
        exact ih (fun z hz => hall z (by simp [hz]))

theorem WTrig_obj {v : JValue} (h : WTrig v) : ∃ fs, v = .obj fs := by
  cases h with
  | wand fs items _ _ => exact ⟨fs, rfl⟩
  | wor fs items _ _ _ => exact ⟨fs, rfl⟩
  | wflat fs _ _ _ => exact ⟨fs, rfl⟩

theorem transform_triggers_loop_total {symbol : JValue} {amap : List (JValue × JValue)}
    {fuel : Nat} (hmap : ∀ p ∈ amap, actionOkB (p : JValue × JValue).2 = true) :
    ∀ (ts : List JValue) (i : Nat),
    (∀ t ∈ ts, WTrig t ∧ trigActionsOkB t = true ∧ 2 * jsize t + 2 ≤ fuel) →
    resIsOk (transform_triggers_loop symbol amap fuel i ts) = true := by
  intro ts
  induction ts with
  | nil => intro i _; rfl
  | cons t rest ih =>
    intro i hall
    obtain ⟨hw, hta, hfuel⟩ := hall t (by simp)
    obtain ⟨cond, hcond⟩ := resIsOk_iff.mp ((transform_total symbol fuel).2 t hw hfuel)
    obtain ⟨fs, rfl⟩ := WTrig_obj hw
    unfold trigActionsOkB at hta
    dsimp only at hta
    have hids : ∃ ids, (lookupField fs "actions").getD (.arr []) = .arr ids
        ∧ (∀ a ∈ ids, hashable a = true) := by
      cases ha : lookupField fs "actions" with
      | none => exact ⟨[], rfl, by simp⟩
      | some av =>
        rw [ha] at hta
        cases av with
        | arr ids =>
          refine ⟨ids, rfl, ?_⟩
          intro a haa
          exact List.all_eq_true.mp hta a haa
        | null => simp at hta
        | bool b => simp at hta
        | num n => simp at hta
        | str s2 => simp at hta
        | obj o2 => simp at hta
    obtain ⟨ids, hidse, hidh⟩ := hids
    obtain ⟨here, hhere⟩ := resIsOk_iff.mp
      (@rulesForTrigger_total symbol amap i cond hmap ids hidh)
    obtain ⟨rs, hrs⟩ := resIsOk_iff.mp
      (ih (i+1) (fun z hz => hall z (by simp [hz])))
    simp [transform_triggers_loop, hcond, pyGetD_obj, hidse, pyIterate, hhere, hrs,
      Bind.bind, Except.bind, pure, Except.pure, resIsOk]

end QSDL

namespace QSDL

theorem indicatorOkB_idOk {x : JValue} (h : indicatorOkB x = true) : idOk x = true := by
  unfold indicatorOkB at h
  unfold idOk
  cases x <;> simp_all

theorem actionOkB_idOk {x : JValue} (h : actionOkB x = true) : idOk x = true := by
  unfold actionOkB at h
  unfold idOk
  cases x <;> simp_all

/-- **C2** (corrected): on well-formed configurations (see `WConfig`),
`normalize` is total — it returns a StrategyAST and never raises. The
unqualified claim is false: see the counterexample, where an indicator lacking
an `id` key raises a KeyError inside `_build_indicators_map`. -/
theorem c2_normalize_total (strategy : List (String × JValue)) (h : WConfig strategy) :
    ∃ ast, transform_strategy strategy = .ok ast := by
  obtain ⟨hsym, hinds, hacts, htrig⟩ := h
  obtain ⟨symbol, hsymbol⟩ := resIsOk_iff.mp (resolveSymbol_total hsym)
  have hindsList : ∃ indsv, ((lookupField strategy "indicators").getD (.arr []))
      = .arr indsv ∧ ∀ x ∈ indsv, indicatorOkB x = true := by
    unfold indicatorsOkB at hinds
    cases hi : lookupField strategy "indicators" with
    | none => exact ⟨[], rfl, by simp⟩
    | some v =>
      rw [hi] at hinds
      cases v with
      | arr inds => exact ⟨inds, rfl, List.all_eq_true.mp hinds⟩
      | null => simp at hinds
      | bool b => simp at hinds
      | num n => simp at hinds
      | str s => simp at hinds
      | obj fs => simp at hinds
  obtain ⟨indsv, hindsv, hallinds⟩ := hindsList
  have hactsList : ∃ actsv, ((lookupField strategy "actions").getD (.arr []))
      = .arr actsv ∧ ∀ x ∈ actsv, actionOkB x = true := by
    unfold actionsOkB at hacts
    cases hi : lookupField strategy "actions" with
    | none => exact ⟨[], rfl, by simp⟩
    | some v =>
      rw [hi] at hacts
      cases v with
      | arr acts => exact ⟨acts, rfl, List.all_eq_true.mp hacts⟩
      | null => simp at hacts
      | bool b => simp at hacts
      | num n => simp at hacts
      | str s => simp at hacts
      | obj fs => simp at hacts
  obtain ⟨actsv, hactsv, hallacts⟩ := hactsList
  obtain ⟨imap, himap, _⟩ := buildMap_loop_total indsv []
    (fun x hx => indicatorOkB_idOk (hallinds x hx))
  obtain ⟨amap, hamap, hamem⟩ := buildMap_loop_total actsv []
    (fun x hx => actionOkB_idOk (hallacts x hx))
  have hmap : ∀ p ∈ amap, actionOkB (p : JValue × JValue).2 = true := by
    intro p hp
    rcases hamem p hp with h1 | h1
    · simp at h1
    · exact hallacts p.2 h1
  obtain ⟨inds2, hinds2⟩ := resIsOk_iff.mp (transform_indicators_list_total indsv hallinds)
  have htrigList : ∃ ts, ((lookupField strategy "triggers").getD (.arr []))
      = .arr ts ∧ ∀ t ∈ ts, WTrig t ∧ trigActionsOkB t = true
        ∧ 2 * jsize t + 2 ≤ strategyFuel strategy := by
    cases hi : lookupField strategy "triggers" with
    | none => exact ⟨[], rfl, by simp⟩
    | some v =>
      rw [hi] at htrig
      cases v with
      | arr ts =>
        refine ⟨ts, rfl, ?_⟩
        intro t ht
        obtain ⟨hw, hta⟩ := htrig t ht
        refine ⟨hw, hta, ?_⟩
        have h1 : jsize t < jsize (.arr ts) := jsize_mem_arr ht
        have h2 : jsize (.arr ts) < 1 + jsizeFields strategy :=
          jsizeFields_mem (lookupField_mem hi)
        unfold strategyFuel
        omega
      | null => simp at htrig
      | bool b => simp at htrig
      | num n => simp at htrig
      | str s => simp at htrig
      | obj fs => simp at htrig
  obtain ⟨ts, hts, hallts⟩ := htrigList
  obtain ⟨rules, hrules⟩ := resIsOk_iff.mp
    (@transform_triggers_loop_total symbol amap (strategyFuel strategy) hmap ts 0 hallts)
  refine ⟨{ symbol := symbol, indicators := inds2, rules := rules }, ?_⟩
  simp [transform_strategy, hsymbol, buildMap, hindsv, hactsv, pyIterate, himap, hamap,
    transform_indicators, hinds2, hts, hrules, Bind.bind, Except.bind, pure, Except.pure,
    transform_indicators_list]

/-- The configuration exhibiting the C2 violation: an indicator entry without
an `id` key. -/
def c2BadConfig : List (String × JValue) := [("indicators", .arr [.obj []])]

/-- **C2 counterexample**. The claim as stated is false: `normalize` raises
(KeyError on `id` inside `_build_indicators_map`) for a configuration whose
indicator list contains a dict with no `id` key, instead of substituting a
default. -/
theorem c2_counterexample :
    transform_strategy c2BadConfig = .error "KeyError: id" := rfl

theorem c2_normalize_total_witness :
    WConfig sampleConfig ∧ ∃ ast, transform_strategy sampleConfig = .ok ast := by
  have hw : WConfig sampleConfig := by
    refine ⟨rfl, rfl, rfl, ?_⟩
    intro t ht
    simp only [List.mem_cons, List.not_mem_nil, or_false] at ht
    rcases ht with rfl | rfl
    · constructor
      · refine WTrig.wand _ _ rfl ?_
        intro c hc
        simp only [List.mem_cons, List.not_mem_nil, or_false] at hc
        rcases hc with rfl | rfl | rfl
        · exact WCond.flat _ rfl rfl rfl
        · exact WCond.flat _ rfl rfl rfl
        · exact WCond.flat _ rfl rfl rfl
      · rfl
    · constructor
      · refine WTrig.wand _ _ rfl ?_
        intro c hc
        simp only [List.mem_cons, List.not_mem_nil, or_false] at hc
        rcases hc with rfl
        exact WCond.flat _ rfl rfl rfl
      · rfl
  exact ⟨hw, c2_normalize_total sampleConfig hw⟩

end QSDL

namespace QSDL

/-! ## Definedness of emit on normalizer output (C10) -/

/-- Indicator reference names that the Emitter can render (`.replace` demands
a string). -/
def namesOkVal : Value → Bool
  | .indicator_ref (.str _) => true
  | .indicator_ref _ => false
  | .literal _ _ => true
  | .price_ref _ => true

mutual

/-- Every IndicatorReference anywhere in the tree carries a string name. -/
def namesOk : Expr → Bool
  | .comparison l _ r => namesOkVal l && namesOkVal r
  | .logical _ ops => namesOkList ops
termination_by structural e => e

def namesOkList : List Expr → Bool
  | [] => true
  | e :: rest => namesOk e && namesOkList rest
termination_by structural es => es

end

theorem get_value_js_total {v : Value} (h : namesOkVal v = true) :
    ∃ s, get_value_js v = .ok s := by
  cases v with
  | literal x d => exact ⟨_, rfl⟩
  | price_ref x => exact ⟨_, rfl⟩
  | indicator_ref n =>
    cases n with
    | str s2 => exact ⟨_, rfl⟩
    | null => simp [namesOkVal] at h
    | bool b => simp [namesOkVal] at h
    | num k => simp [namesOkVal] at h
    | arr a2 => simp [namesOkVal] at h
    | obj o2 => simp [namesOkVal] at h

theorem generate_comparison_operator_total {op : String} (h : op ∈ comparisonOps) :
    ∃ s, generate_comparison_operator op = .ok s := by
  simp only [comparisonOps, List.mem_cons, List.not_mem_nil, or_false] at h
  rcases h with rfl | rfl | rfl | rfl | rfl | rfl <;> exact ⟨_, rfl⟩

theorem opsValidList_mem {ops : List Expr} (h : opsValidList ops = true) :
    ∀ c ∈ ops, opsValid c = true := by
  induction ops with
  | nil => simp
  | cons e rest ih =>
    simp only [opsValidList, Bool.and_eq_true] at h
    intro c hc
    rcases List.mem_cons.mp hc with rfl | hc2
    · exact h.1
    · exact ih h.2 c hc2

theorem namesOkList_mem {ops : List Expr} (h : namesOkList ops = true) :
    ∀ c ∈ ops, namesOk c = true := by
  induction ops with
  | nil => simp
  | cons e rest ih =>
    simp only [namesOkList, Bool.and_eq_true] at h
    intro c hc
    rcases List.mem_cons.mp hc with rfl | hc2
    · exact h.1
    · exact ih h.2 c hc2

theorem generate_operand_list_total : ∀ (ops : List Expr),
    (∀ c ∈ ops, resIsOk (generate_condition_js c) = true) →
    ∃ ss, generate_operand_list ops = .ok ss := by
  intro ops
  induction ops with
  | nil => intro _; exact ⟨[], rfl⟩
  | cons c rest ih =>
    intro hall
    obtain ⟨s, hs⟩ := resIsOk_iff.mp (hall c (by simp))
    obtain ⟨ss, hss⟩ := ih (fun z hz => hall z (by simp [hz]))
    refine ⟨("(" ++ s ++ ")") :: ss, ?_⟩
    simp [generate_operand_list, hs, hss, Bind.bind, Except.bind, pure, Except.pure]

theorem generate_condition_js_total : ∀ (n : Nat) (e : Expr), sizeOf e ≤ n →
    opsValid e = true → namesOk e = true →
    resIsOk (generate_condition_js e) = true := by
  intro n
  induction n using Nat.strong_induction_on with
  | _ n ih =>
    intro e hsz ho hn
    cases e with
    | comparison l op r =>
      simp only [namesOk, Bool.and_eq_true] at hn
      obtain ⟨sl, hsl⟩ := get_value_js_total hn.1
      obtain ⟨sr, hsr⟩ := get_value_js_total hn.2
      have hmem : op ∈ comparisonOps := by
        simpa [opsValid] using ho
      obtain ⟨so, hso⟩ := generate_comparison_operator_total hmem
      simp [generate_condition_js, hsl, hsr, hso, Bind.bind, Except.bind, pure,
        Except.pure, resIsOk]
    | logical op ops =>
      simp only [opsValid] at ho
      simp only [namesOk] at hn
      obtain ⟨ss, hss⟩ := generate_operand_list_total ops (fun c hc =>
        ih (sizeOf c) (lt_of_lt_of_le (Expr.sizeOf_mem hc) hsz) c le_rfl
          (opsValidList_mem ho c hc) (namesOkList_mem hn c hc))
      simp [generate_condition_js, hss, Bind.bind, Except.bind, pure, Except.pure,
        resIsOk]

theorem generate_rules_loop_total : ∀ (rules : List Rule) (lvl : Nat),
    (∀ r ∈ rules, opsValid r.condition = true ∧ namesOk r.condition = true) →
    resIsOk (generate_rules_loop lvl rules) = true := by
  intro rules
  induction rules with
  | nil => intro lvl _; rfl
  | cons rule rest ih =>
    intro lvl hall
    obtain ⟨ho, hn⟩ := hall rule (by simp)
    have hcond := generate_condition_js_total (sizeOf rule.condition)
      rule.condition le_rfl ho hn
    obtain ⟨conds, hconds⟩ := resIsOk_iff.mp hcond
    obtain ⟨out2, hout2⟩ := resIsOk_iff.mp
      (ih lvl (fun z hz => hall z (by simp [hz])))
    simp only [generate_rules_loop]
    split_ifs with h1 h2
    · simp [hconds, hout2, Bind.bind, Except.bind, pure, Except.pure, resIsOk]
    · simp [hconds, hout2, Bind.bind, Except.bind, pure, Except.pure, resIsOk]
    · exact resIsOk_iff.mpr ⟨out2, hout2⟩

/-- **C10** (corrected). On every AST that `normalize` produces: (a) every
Comparison node carries one of the six operator strings of the Emitter's
table, so the unguarded operator lookup never fails (the claim's operator
part, proved unconditionally); and (b) `emit` is defined *provided* every
IndicatorReference in the rules' conditions carries a string name. The
claim's unconditional definedness is false — `get_value_js` calls
`.replace` on the reference name, which raises AttributeError when a
configuration supplies a non-string `indicator1` (see the counterexample). -/
theorem c10_emit_defined (strategy : List (String × JValue)) (ast : StrategyAST)
    (lvl : Nat) (h : transform_strategy strategy = .ok ast) :
    (∀ r ∈ ast.rules, opsValid r.condition = true)
    ∧ ((∀ r ∈ ast.rules, namesOk r.condition = true) →
      ∃ out, generate ast lvl = .ok out) := by
  refine ⟨fun r hr => (transform_strategy_rules_wf h r hr).2, fun hnames => ?_⟩
  obtain ⟨ruleOut, hrules⟩ := resIsOk_iff.mp
    (generate_rules_loop_total ast.rules (lvl + 1) (fun r hr =>
      ⟨(transform_strategy_rules_wf h r hr).2, hnames r hr⟩))
  refine resIsOk_iff.mp ?_
  simp [generate, hrules, Bind.bind, Except.bind, pure, Except.pure, resIsOk]

/-- The configuration exhibiting the C10 violation: a resolvable
`entry_long` action and an `indicator_comparison` whose `indicator1` is a
number. -/
def c10BadConfig : List (String × JValue) :=
  [("triggers", .arr [.obj [
     ("and", .arr [.obj [("type", .str "indicator_comparison"),
       ("params", .obj [("indicator1", .num 5)])]]),
     ("actions", .arr [.str "entry_long"])]]),
   ("actions", .arr [.obj [("id", .str "entry_long"), ("type", .str "entry")]])]

/-- **C10 counterexample**. The claim as stated is false: on `c10BadConfig`
`normalize` succeeds, yet `emit` raises — the IndicatorReference name `5` is
not a string and `val['name'].replace` fails with AttributeError. -/
theorem c10_counterexample :
    resIsOk (transform_strategy c10BadConfig) = true
    ∧ (transform_strategy c10BadConfig).bind (fun a => generate a 0)
      = .error "AttributeError: replace" :=
  ⟨rfl, rfl⟩

theorem c10_emit_defined_witness :
    ∃ ast, transform_strategy sampleConfig = .ok ast
      ∧ (∀ r ∈ ast.rules, opsValid r.condition = true)
      ∧ ∃ out, generate ast 0 = .ok out := by
  refine ⟨_, rfl, ?_, ?_⟩
  · exact (c10_emit_defined sampleConfig _ 0 rfl).1
  · exact (c10_emit_defined sampleConfig _ 0 rfl).2 (by decide)

end QSDL
